import Mathlib

/-!
# A quadtree spatial index (`openended.c`)

Shallow embedding of the quadtree of `openended.c` and proofs about it.

Modelling conventions.

* `float` coordinates are exact rationals (`ℚ`): `x / 2.0f` is `x / 2`, and
  comparisons are the comparisons of `ℚ`. Where rounding decides a property,
  the `float` sum is `floatAdd` (IEEE 754 binary32, round to nearest, ties to
  even, normal range); infinities and NaN are outside the model.
* A `Quadtree *` is a value of `Quadtree`: `null` is the `NULL` pointer and
  `node ..` is a pointer to a node that owns its four child pointers
  (`nodes[0..3]`). Trees are never shared, so in-place updates are modelled by
  returning the updated tree.
* `objects[MAX_OBJECTS]` together with `objectCount` is the list of the first
  `objectCount` entries. There are two versions of `insert`. In
  `insertInBoundsFuel` the store `node->objects[node->objectCount++] = object`
  has a result only while `objectCount < MAX_OBJECTS`, the length of the
  declared array; a store past its end is undefined behaviour and yields
  `none`. In `insertFuel` the entry list is an unbounded sequence and the store
  is an append, whatever the count. The two agree wherever the store is in
  bounds (`insertInBoundsFuel_refines`).
* An `Object *` is the `Object` it points to.
* Dereferencing `NULL` yields no result (`none`).
* `insert` is not structurally recursive (entries are re-inserted into
  children that an earlier iteration of the same loop has modified), so it is
  defined with an explicit bound on the nesting depth of its recursive calls.
-/

/-- Maximum objects a node can hold before splitting (`#define MAX_OBJECTS 4`). -/
def MAX_OBJECTS : Nat := 4

/-- Maximum depth of the quadtree (`#define MAX_LEVELS 5`). -/
def MAX_LEVELS : Int := 5

/-- Rectangle structure representing an area in 2D space. -/
structure Rectangle where
  x : ℚ
  y : ℚ
  width : ℚ
  height : ℚ
deriving DecidableEq, Repr

/-- Object structure representing an object with an ID and bounding box. -/
structure Object where
  id : Int
  bounds : Rectangle
deriving DecidableEq, Repr

/-- Quadtree node structure, seen through a pointer: `null` is `NULL`, and
`node level bounds objects n0 n1 n2 n3` is a node whose `objects` list holds
`objects[0 .. objectCount)` and whose `nodes[k]` is `nk`. -/
inductive Quadtree where
  | null : Quadtree
  | node (level : Int) (bounds : Rectangle) (objects : List Object)
      (n0 n1 n2 n3 : Quadtree) : Quadtree
deriving DecidableEq, Repr

namespace Quadtree

/-- Test `node == NULL`. -/
def isNull : Quadtree → Bool
  | null => true
  | node _ _ _ _ _ _ _ => false

/-- Field `node->level` (0 for `NULL`, which has no fields). -/
def level : Quadtree → Int
  | null => 0
  | node l _ _ _ _ _ _ => l

/-- Field `node->bounds`. -/
def bounds : Quadtree → Rectangle
  | null => ⟨0, 0, 0, 0⟩
  | node _ b _ _ _ _ _ => b

/-- The entries `node->objects[0 .. objectCount)`. -/
def objects : Quadtree → List Object
  | null => []
  | node _ _ os _ _ _ _ => os

/-- Read `node->nodes[index]`; an index outside `0..3` gives `NULL`. -/
def nodes : Quadtree → Int → Quadtree
  | null, _ => null
  | node _ _ _ n0 n1 n2 n3, index =>
    if index = 0 then n0 else if index = 1 then n1
    else if index = 2 then n2 else if index = 3 then n3 else null

/-- The node after the subtree behind `node->nodes[index]` has been replaced
by `c`. -/
def setNode : Quadtree → Int → Quadtree → Quadtree
  | null, _, _ => null
  | node l b os n0 n1 n2 n3, index, c =>
    if index = 0 then node l b os c n1 n2 n3
    else if index = 1 then node l b os n0 c n2 n3
    else if index = 2 then node l b os n0 n1 c n3
    else if index = 3 then node l b os n0 n1 n2 c
    else node l b os n0 n1 n2 n3

/-- The node after `node->objects[node->objectCount++] = object`. -/
def pushObject : Quadtree → Object → Quadtree
  | null, _ => null
  | node l b os n0 n1 n2 n3, o => node l b (os ++ [o]) n0 n1 n2 n3

/-- The node with `objectCount` reset to the given entries. -/
def setObjects : Quadtree → List Object → Quadtree
  | null, _ => null
  | node l b _ n0 n1 n2 n3, os => node l b os n0 n1 n2 n3

/-- Every entry stored anywhere in the tree: the node's own entries, then
those of the four subtrees. -/
def allObjects : Quadtree → List Object
  | null => []
  | node _ _ os n0 n1 n2 n3 =>
    os ++ (allObjects n0 ++ (allObjects n1 ++ (allObjects n2 ++ allObjects n3)))

/-- Every (non-`NULL`) node of the tree, the root first. -/
def subnodes : Quadtree → List Quadtree
  | null => []
  | node l b os n0 n1 n2 n3 =>
    node l b os n0 n1 n2 n3 ::
      (subnodes n0 ++ (subnodes n1 ++ (subnodes n2 ++ subnodes n3)))

end Quadtree


/-- Function to check if two rectangles overlap, the sums `x + width` and
`y + height` taken as exact numbers. -/
def isOverlapping (a b : Rectangle) : Bool :=
  !(decide (a.x > b.x + b.width) || decide (a.x + a.width < b.x) ||
    decide (a.y > b.y + b.height) || decide (a.y + a.height < b.y))

/-- Create a new quadtree node. -/
def createQuadtree (level : Int) (bounds : Rectangle) : Quadtree :=
  .node level bounds [] .null .null .null .null

/-- Subdivide a quadtree node into four child nodes. (`insert` has already
read `node->nodes[0]` when it calls `subdivide`, so `node` is not `NULL`
there.) -/
def subdivide : Quadtree → Quadtree
  | .null => .null
  | .node level bounds objects _ _ _ _ =>
    let subWidth := bounds.width / 2
    let subHeight := bounds.height / 2
    let x := bounds.x
    let y := bounds.y
    .node level bounds objects
      (createQuadtree (level + 1) ⟨x, y, subWidth, subHeight⟩)
      (createQuadtree (level + 1) ⟨x + subWidth, y, subWidth, subHeight⟩)
      (createQuadtree (level + 1) ⟨x, y + subHeight, subWidth, subHeight⟩)
      (createQuadtree (level + 1) ⟨x + subWidth, y + subHeight, subWidth, subHeight⟩)

/-- Get the index of the quadrant where the object belongs. Only
`node->bounds` is read, so the node is represented by its region. -/
def getIndex (region : Rectangle) (bounds : Rectangle) : Int :=
  let verticalMidpoint := region.x + region.width / 2
  let horizontalMidpoint := region.y + region.height / 2
  let topQuadrant : Bool :=
    decide (bounds.y < horizontalMidpoint) && decide (bounds.y + bounds.height < horizontalMidpoint)
  let bottomQuadrant : Bool := decide (bounds.y > horizontalMidpoint)
  if bounds.x < verticalMidpoint ∧ bounds.x + bounds.width < verticalMidpoint then
    if topQuadrant then 0
    else if bottomQuadrant then 2
    else -1
  else if bounds.x > verticalMidpoint then
    if topQuadrant then 1
    else if bottomQuadrant then 3
    else -1
  else -1

/-- The redistribution loop of `insert` (`while (i < node->objectCount)`).
The entries `objects[0 .. i)` already examined and kept are the entries of
`node`; the first argument is the rest `objects[i .. objectCount)`, still to
be examined. An entry with a quadrant is handed to `ins` (the recursive
`insert`) on that child and the tail is shifted left over it; an entry
without one stays and `i` advances. -/
def redistribute (ins : Quadtree → Object → Option Quadtree) :
    List Object → Quadtree → Option Quadtree
  | [], node => some node
  | object :: rest, node =>
    let index := getIndex node.bounds object.bounds
    if index ≠ -1 then
      match ins (node.nodes index) object with
      | none => none
      | some child => redistribute ins rest (node.setNode index child)
    else
      redistribute ins rest (node.pushObject object)

/-- Insert an object into the quadtree, the entry list taken as an unbounded
sequence (the store is an append, whatever `objectCount` is), with at most
`fuel` nested calls of `insert`; `none` when the bound is exhausted or `NULL`
is dereferenced. -/
def insertFuel : Nat → Quadtree → Object → Option Quadtree
  | 0, _, _ => none
  | _ + 1, .null, _ => none
  | fuel + 1, .node level bounds objects n0 n1 n2 n3, object =>
    if !n0.isNull && decide (getIndex bounds object.bounds ≠ -1) then
      let index := getIndex bounds object.bounds
      match insertFuel fuel ((Quadtree.node level bounds objects n0 n1 n2 n3).nodes index) object with
      | none => none
      | some child => some ((Quadtree.node level bounds objects n0 n1 n2 n3).setNode index child)
    else
      let objects := objects ++ [object]
      if objects.length > MAX_OBJECTS ∧ level < MAX_LEVELS then
        let node :=
          if n0.isNull then subdivide (Quadtree.node level bounds objects n0 n1 n2 n3)
          else Quadtree.node level bounds objects n0 n1 n2 n3
        redistribute (insertFuel fuel) node.objects (node.setObjects [])
      else
        some (Quadtree.node level bounds objects n0 n1 n2 n3)

/-- Insert an object into the quadtree, the entry list taken as an unbounded
sequence. `MAX_LEVELS + 1` nested calls are enough on every tree built from a
level-0 root (`insertAll_total`). -/
def Quadtree.insert (node : Quadtree) (object : Object) : Option Quadtree :=
  insertFuel (MAX_LEVELS + 1).toNat node object

/-- A sequence of `insert` calls on the same root, in order, the entry lists
taken as unbounded sequences. -/
def insertAll : Quadtree → List Object → Option Quadtree
  | node, [] => some node
  | node, object :: rest =>
    match node.insert object with
    | none => none
    | some node => insertAll node rest

/-- Retrieve potential colliders for a given object. `returnObjects` is the
output buffer `returnObjects[0 .. *returnCount)` on entry; the result is the
buffer on exit. -/
def retrieve : Quadtree → Object → List Object → Option (List Object)
  | .null, _, _ => none
  | .node _ bounds objects n0 n1 n2 n3, object, returnObjects =>
    let index := getIndex bounds object.bounds
    let below : Option (List Object) :=
      if index ≠ -1 ∧ !n0.isNull then
        if index = 0 then retrieve n0 object returnObjects
        else if index = 1 then retrieve n1 object returnObjects
        else if index = 2 then retrieve n2 object returnObjects
        else if index = 3 then retrieve n3 object returnObjects
        else none
      else some returnObjects
    match below with
    | none => none
    | some returnObjects => some (returnObjects ++ objects)

/-! ## Specification-side notions -/

/-- The vertical midline `midX = region.x + region.width/2` of a region. -/
def midX (region : Rectangle) : ℚ := region.x + region.width / 2

/-- The horizontal midline `midY = region.y + region.height/2` of a region. -/
def midY (region : Rectangle) : ℚ := region.y + region.height / 2

/-- Entirely in the top half: `b.y < midY` and `b.y + b.height < midY`. -/
def inTop (region b : Rectangle) : Prop :=
  b.y < midY region ∧ b.y + b.height < midY region

/-- Entirely in the bottom half: `b.y > midY`. -/
def inBottom (region b : Rectangle) : Prop := b.y > midY region

/-- Entirely in the left half: `b.x < midX` and `b.x + b.width < midX`. -/
def inLeft (region b : Rectangle) : Prop :=
  b.x < midX region ∧ b.x + b.width < midX region

/-- Entirely in the right half: `b.x > midX`. -/
def inRight (region b : Rectangle) : Prop := b.x > midX region

/-- The point `(px, py)` lies in the closed rectangle `r`. -/
def inClosed (r : Rectangle) (px py : ℚ) : Prop :=
  r.x ≤ px ∧ px ≤ r.x + r.width ∧ r.y ≤ py ∧ py ≤ r.y + r.height

/-- The point `(px, py)` lies in the interior of the rectangle `r`. -/
def inInterior (r : Rectangle) (px py : ℚ) : Prop :=
  r.x < px ∧ px < r.x + r.width ∧ r.y < py ∧ py < r.y + r.height

/-- A node is a leaf when all four child pointers are `NULL`. -/
def Quadtree.isLeaf : Quadtree → Bool
  | .null => true
  | .node _ _ _ n0 n1 n2 n3 => n0.isNull && n1.isNull && n2.isNull && n3.isNull

/-- A node is subdivided when none of its four child pointers is `NULL`. -/
def Quadtree.hasFourChildren : Quadtree → Bool
  | .null => false
  | .node _ _ _ n0 n1 n2 n3 => !n0.isNull && !n1.isNull && !n2.isNull && !n3.isNull

/-- The nodes on the probe's single descent path, the root first: from each
node with children whose quadrant for the probe is determinate, the path goes
on into that one child, and it ends at the first node that is a leaf or for
which the probe is indeterminate. -/
def descentPath : Quadtree → Rectangle → List Quadtree
  | .null, _ => []
  | .node level bounds objects n0 n1 n2 n3, probe =>
    .node level bounds objects n0 n1 n2 n3 ::
      (if (Quadtree.node level bounds objects n0 n1 n2 n3).isLeaf then []
       else if getIndex bounds probe = 0 then descentPath n0 probe
       else if getIndex bounds probe = 1 then descentPath n1 probe
       else if getIndex bounds probe = 2 then descentPath n2 probe
       else if getIndex bounds probe = 3 then descentPath n3 probe
       else [])

/-- The path-concatenation reference for `retrieve`: the direct entry lists
of the nodes on the probe's descent path, deepest node first and root last. -/
def retrieveRef (node : Quadtree) (probe : Rectangle) : List Object :=
  ((descentPath node probe).reverse.map Quadtree.objects).flatten

/-- All-or-nothing shape: the pointer is not `NULL`, and every node of the
tree has either no child or all four. -/
def WellShaped : Quadtree → Prop
  | .null => False
  | .node _ _ _ n0 n1 n2 n3 =>
    (n0 = .null ∧ n1 = .null ∧ n2 = .null ∧ n3 = .null) ∨
    (WellShaped n0 ∧ WellShaped n1 ∧ WellShaped n2 ∧ WellShaped n3)

/-- The region of child `index` of a node with region `region`: NW
`(x, y, w/2, h/2)`, NE `(x + w/2, y, w/2, h/2)`, SW `(x, y + h/2, w/2, h/2)`,
SE `(x + w/2, y + h/2, w/2, h/2)`. -/
def quadrantRegion (region : Rectangle) (index : Int) : Rectangle :=
  if index = 0 then ⟨region.x, region.y, region.width / 2, region.height / 2⟩
  else if index = 1 then
    ⟨region.x + region.width / 2, region.y, region.width / 2, region.height / 2⟩
  else if index = 2 then
    ⟨region.x, region.y + region.height / 2, region.width / 2, region.height / 2⟩
  else
    ⟨region.x + region.width / 2, region.y + region.height / 2,
      region.width / 2, region.height / 2⟩

/-- What the invariant asks of the child `c` at position `index` of a node
with the given level and region: it is one level deeper, covers that quadrant,
and every entry stored in its subtree classifies to `index` against the
parent. -/
def ChildOK (level : Int) (region : Rectangle) (index : Int) (c : Quadtree) : Prop :=
  c.level = level + 1 ∧ c.bounds = quadrantRegion region index ∧
    ∀ e ∈ c.allObjects, getIndex region e.bounds = index

/-- The invariant of trees built by `createQuadtree` and `insert`. No level
exceeds `MAX_LEVELS`; a node is a leaf or has four children; a node with
children is below `MAX_LEVELS`, holds only entries without a quadrant, and
each child satisfies `ChildOK` and the invariant. -/
def WellFormed : Quadtree → Prop
  | .null => False
  | .node level bounds objects n0 n1 n2 n3 =>
    level ≤ MAX_LEVELS ∧
    ((n0 = .null ∧ n1 = .null ∧ n2 = .null ∧ n3 = .null) ∨
     (level < MAX_LEVELS ∧ (∀ e ∈ objects, getIndex bounds e.bounds = -1) ∧
      ChildOK level bounds 0 n0 ∧ ChildOK level bounds 1 n1 ∧
      ChildOK level bounds 2 n2 ∧ ChildOK level bounds 3 n3 ∧
      WellFormed n0 ∧ WellFormed n1 ∧ WellFormed n2 ∧ WellFormed n3))

/-- What one successful call `ins c o` must deliver: a well-formed tree with
the level and region of `c` that stores the entries of `c` and `o`. -/
def InsertOK (ins : Quadtree → Object → Option Quadtree) (c : Quadtree) (o : Object) : Prop :=
  ∃ c', ins c o = some c' ∧ WellFormed c' ∧ c'.level = c.level ∧ c'.bounds = c.bounds ∧
    (c'.allObjects : Multiset Object) = o ::ₘ (c.allObjects : Multiset Object)

/-- Retrieve with at most `fuel` nested calls of `retrieve`: the body of
`retrieve`, with `none` when the bound is exhausted. -/
def retrieveFuel : Nat → Quadtree → Object → List Object → Option (List Object)
  | 0, _, _, _ => none
  | _ + 1, .null, _, _ => none
  | fuel + 1, .node level bounds objects n0 n1 n2 n3, object, returnObjects =>
    let index := getIndex bounds object.bounds
    let below : Option (List Object) :=
      if index ≠ -1 ∧ !n0.isNull then
        retrieveFuel fuel ((Quadtree.node level bounds objects n0 n1 n2 n3).nodes index)
          object returnObjects
      else some returnObjects
    match below with
    | none => none
    | some returnObjects => some (returnObjects ++ objects)

/-- The bounds `b` are contained in the closed region `r`: the rectangle `b`
starts at or after the origin of `r` and ends at or before its far edges. -/
def containedIn (b r : Rectangle) : Prop :=
  r.x ≤ b.x ∧ b.x + b.width ≤ r.x + r.width ∧ r.y ≤ b.y ∧ b.y + b.height ≤ r.y + r.height

/-- Insert an object into the quadtree as the declared array allows it, with
at most `fuel` nested calls of `insert`. The store
`node->objects[node->objectCount++] = object` has a result only while
`objectCount < MAX_OBJECTS`, the length of `objects`; a store past the end of
the array is undefined behaviour and yields `none`, as do an exhausted bound
and a dereferenced `NULL`. -/
def insertInBoundsFuel : Nat → Quadtree → Object → Option Quadtree
  | 0, _, _ => none
  | _ + 1, .null, _ => none
  | fuel + 1, .node level bounds objects n0 n1 n2 n3, object =>
    if !n0.isNull && decide (getIndex bounds object.bounds ≠ -1) then
      let index := getIndex bounds object.bounds
      match insertInBoundsFuel fuel
          ((Quadtree.node level bounds objects n0 n1 n2 n3).nodes index) object with
      | none => none
      | some child => some ((Quadtree.node level bounds objects n0 n1 n2 n3).setNode index child)
    else if objects.length < MAX_OBJECTS then
      let objects := objects ++ [object]
      if objects.length > MAX_OBJECTS ∧ level < MAX_LEVELS then
        let node :=
          if n0.isNull then subdivide (Quadtree.node level bounds objects n0 n1 n2 n3)
          else Quadtree.node level bounds objects n0 n1 n2 n3
        redistribute (insertInBoundsFuel fuel) node.objects (node.setObjects [])
      else
        some (Quadtree.node level bounds objects n0 n1 n2 n3)
    else
      none

/-- Insert an object into the quadtree as the declared array allows it, with
`MAX_LEVELS + 1` nested calls allowed. -/
def Quadtree.insertInBounds (node : Quadtree) (object : Object) : Option Quadtree :=
  insertInBoundsFuel (MAX_LEVELS + 1).toNat node object

/-- A sequence of `insert` calls on the same root, in order, as the declared
array allows them: no result once a store is past the end of `objects`. -/
def insertAllInBounds : Quadtree → List Object → Option Quadtree
  | node, [] => some node
  | node, object :: rest =>
    match node.insertInBounds object with
    | none => none
    | some node => insertAllInBounds node rest

/-- Round `q` to the nearest multiple of `ulp`, a tie going to the even
multiple. -/
def roundTiesEven (ulp q : ℚ) : ℚ :=
  let n : Int := ⌊q / ulp⌋
  let d : ℚ := q / ulp - n
  if d < 1 / 2 then n * ulp
  else if 1 / 2 < d then (n + 1) * ulp
  else if n % 2 = 0 then n * ulp
  else (n + 1) * ulp

/-- The `float` nearest to the exact number `q` (IEEE 754 binary32, round to
nearest, ties to even, normal range): with 24 significant bits the spacing of
the values between `2^e` and `2^(e+1)` is `2^(e-23)`. -/
def toFloat (q : ℚ) : ℚ :=
  if q = 0 then 0 else roundTiesEven ((2 : ℚ) ^ (Int.log 2 |q| - 23)) q

/-- The sum `a + b` of two `float` values, as a `float`. -/
def floatAdd (a b : ℚ) : ℚ := toFloat (a + b)

/-- Function to check if two rectangles overlap, the sums `x + width` and
`y + height` computed in `float`. -/
def isOverlappingFloat (a b : Rectangle) : Bool :=
  !(decide (a.x > floatAdd b.x b.width) || decide (floatAdd a.x a.width < b.x) ||
    decide (a.y > floatAdd b.y b.height) || decide (floatAdd a.y a.height < b.y))

/-! ## Geometry: `getIndex`, `subdivide`, `isOverlapping` -/

/-- C1: `getIndex` is the classification rule: it returns 0 (NW) iff left and
top, 2 (SW) iff left, not top and bottom, 1 (NE) iff not left, right and top,
3 (SE) iff not left, right, not top and bottom, and -1 in every other case;
the result is always one of -1, 0, 1, 2, 3. -/
theorem getIndex_classify (region b : Rectangle) :
    (getIndex region b = 0 ↔ inLeft region b ∧ inTop region b) ∧
    (getIndex region b = 2 ↔ inLeft region b ∧ ¬ inTop region b ∧ inBottom region b) ∧
    (getIndex region b = 1 ↔ ¬ inLeft region b ∧ inRight region b ∧ inTop region b) ∧
    (getIndex region b = 3 ↔
      ¬ inLeft region b ∧ inRight region b ∧ ¬ inTop region b ∧ inBottom region b) ∧
    (getIndex region b = -1 ↔
      ¬ (inLeft region b ∧ inTop region b) ∧
      ¬ (inLeft region b ∧ ¬ inTop region b ∧ inBottom region b) ∧
      ¬ (¬ inLeft region b ∧ inRight region b ∧ inTop region b) ∧
      ¬ (¬ inLeft region b ∧ inRight region b ∧ ¬ inTop region b ∧ inBottom region b)) ∧
    (getIndex region b = -1 ∨ getIndex region b = 0 ∨ getIndex region b = 1 ∨
      getIndex region b = 2 ∨ getIndex region b = 3) := by
  unfold getIndex inLeft inTop inRight inBottom midX midY
  simp only [Bool.and_eq_true, decide_eq_true_eq, gt_iff_lt]
  split_ifs <;> simp_all

/-- C7: quadtree tiling. For a node whose region has non-negative width and
height, the four children made by `subdivide` have half the width and half
the height of the parent, a point lies in the parent's closed rectangle iff
it lies in the closed rectangle of some child, and no point lies in the
interior of two distinct children. -/
theorem subdivide_tiling (level : Int) (bounds : Rectangle) (objects : List Object)
    (n0 n1 n2 n3 : Quadtree) (hw : 0 ≤ bounds.width) (hh : 0 ≤ bounds.height) :
    (∀ i : Int, 0 ≤ i → i ≤ 3 →
      (((subdivide (.node level bounds objects n0 n1 n2 n3)).nodes i).bounds.width
          = bounds.width / 2 ∧
       ((subdivide (.node level bounds objects n0 n1 n2 n3)).nodes i).bounds.height
          = bounds.height / 2)) ∧
    (∀ px py : ℚ, inClosed bounds px py ↔
      ∃ i : Int, 0 ≤ i ∧ i ≤ 3 ∧
        inClosed ((subdivide (.node level bounds objects n0 n1 n2 n3)).nodes i).bounds px py) ∧
    (∀ i j : Int, 0 ≤ i → i ≤ 3 → 0 ≤ j → j ≤ 3 → i ≠ j → ∀ px py : ℚ,
      ¬ (inInterior ((subdivide (.node level bounds objects n0 n1 n2 n3)).nodes i).bounds px py ∧
         inInterior ((subdivide (.node level bounds objects n0 n1 n2 n3)).nodes j).bounds px py)) := by
  refine ⟨?_, ?_, ?_⟩
  · intro i h0 h3
    interval_cases i <;> simp [subdivide, createQuadtree, Quadtree.nodes, Quadtree.bounds]
  · intro px py
    constructor
    · rintro ⟨h1, h2, h3, h4⟩
      by_cases hx : px ≤ bounds.x + bounds.width / 2
      · by_cases hy : py ≤ bounds.y + bounds.height / 2
        · exact ⟨0, by norm_num, by norm_num, by
            simp [subdivide, createQuadtree, Quadtree.nodes, Quadtree.bounds, inClosed]
            exact ⟨h1, hx, h3, hy⟩⟩
        · exact ⟨2, by norm_num, by norm_num, by
            simp [subdivide, createQuadtree, Quadtree.nodes, Quadtree.bounds, inClosed]
            exact ⟨h1, hx, by linarith, by linarith⟩⟩
      · by_cases hy : py ≤ bounds.y + bounds.height / 2
        · exact ⟨1, by norm_num, by norm_num, by
            simp [subdivide, createQuadtree, Quadtree.nodes, Quadtree.bounds, inClosed]
            exact ⟨by linarith, by linarith, h3, hy⟩⟩
        · exact ⟨3, by norm_num, by norm_num, by
            simp [subdivide, createQuadtree, Quadtree.nodes, Quadtree.bounds, inClosed]
            exact ⟨by linarith, by linarith, by linarith, by linarith⟩⟩
    · rintro ⟨i, h0, h3, hi⟩
      interval_cases i <;>
        simp [subdivide, createQuadtree, Quadtree.nodes, Quadtree.bounds, inClosed] at hi <;>
        obtain ⟨a, b, c, d⟩ := hi <;>
        exact ⟨by linarith, by linarith, by linarith, by linarith⟩
  · intro i j hi0 hi3 hj0 hj3 hij px py
    interval_cases i <;> interval_cases j <;>
      first
      | exact absurd rfl hij
      | (simp [subdivide, createQuadtree, Quadtree.nodes, Quadtree.bounds, inInterior]
         intros
         linarith)

/-- Witness for C7 on the region `{0, 0, 100, 100}`. -/
theorem subdivide_tiling_witness :
    (∀ i : Int, 0 ≤ i → i ≤ 3 →
      (((subdivide (.node 0 ⟨0, 0, 100, 100⟩ [] .null .null .null .null)).nodes i).bounds.width
          = (100 : ℚ) / 2 ∧
       ((subdivide (.node 0 ⟨0, 0, 100, 100⟩ [] .null .null .null .null)).nodes i).bounds.height
          = (100 : ℚ) / 2)) ∧
    (∀ px py : ℚ, inClosed ⟨0, 0, 100, 100⟩ px py ↔
      ∃ i : Int, 0 ≤ i ∧ i ≤ 3 ∧
        inClosed ((subdivide (.node 0 ⟨0, 0, 100, 100⟩ [] .null .null .null .null)).nodes i).bounds
          px py) ∧
    (∀ i j : Int, 0 ≤ i → i ≤ 3 → 0 ≤ j → j ≤ 3 → i ≠ j → ∀ px py : ℚ,
      ¬ (inInterior
          ((subdivide (.node 0 ⟨0, 0, 100, 100⟩ [] .null .null .null .null)).nodes i).bounds px py ∧
         inInterior
          ((subdivide (.node 0 ⟨0, 0, 100, 100⟩ [] .null .null .null .null)).nodes j).bounds px py)) :=
  subdivide_tiling 0 ⟨0, 0, 100, 100⟩ [] .null .null .null .null (by norm_num) (by norm_num)

/-- C8, amended: with coordinates and the sums `x + width`, `y + height` taken
as exact numbers, for rectangles with non-negative width and height,
`isOverlapping` is true iff some point lies in both closed rectangles (so
rectangles touching along an edge or at a corner overlap), and it is false
exactly when one rectangle is strictly left of, right of, above or below the
other. -/
theorem isOverlapping_iff (a b : Rectangle) (haw : 0 ≤ a.width) (hah : 0 ≤ a.height)
    (hbw : 0 ≤ b.width) (hbh : 0 ≤ b.height) :
    (isOverlapping a b = true ↔ ∃ px py : ℚ, inClosed a px py ∧ inClosed b px py) ∧
    (isOverlapping a b = false ↔
      (a.x > b.x + b.width ∨ a.x + a.width < b.x ∨
       a.y > b.y + b.height ∨ a.y + a.height < b.y)) := by
  constructor
  · simp only [isOverlapping, Bool.not_eq_true', Bool.or_eq_false_iff, decide_eq_false_iff_not,
      not_lt, gt_iff_lt, inClosed]
    constructor
    · rintro ⟨⟨⟨h1, h2⟩, h3⟩, h4⟩
      refine ⟨max a.x b.x, max a.y b.y, ⟨le_max_left _ _, ?_, le_max_left _ _, ?_⟩,
        ⟨le_max_right _ _, ?_, le_max_right _ _, ?_⟩⟩
      · exact max_le (by linarith) h2
      · exact max_le (by linarith) h4
      · exact max_le h1 (by linarith)
      · exact max_le h3 (by linarith)
    · rintro ⟨px, py, ⟨a1, a2, a3, a4⟩, ⟨b1, b2, b3, b4⟩⟩
      exact ⟨⟨⟨by linarith, by linarith⟩, by linarith⟩, by linarith⟩
  · simp only [isOverlapping, Bool.not_eq_false', Bool.or_eq_true, decide_eq_true_eq, gt_iff_lt,
      or_assoc]

/-- Witness for C8, amended: `{0,0,10,10}` and `{10,10,5,5}` touch at one
corner. -/
theorem isOverlapping_iff_witness :
    (isOverlapping ⟨0, 0, 10, 10⟩ ⟨10, 10, 5, 5⟩ = true ↔
      ∃ px py : ℚ, inClosed ⟨0, 0, 10, 10⟩ px py ∧ inClosed ⟨10, 10, 5, 5⟩ px py) ∧
    (isOverlapping ⟨0, 0, 10, 10⟩ ⟨10, 10, 5, 5⟩ = false ↔
      ((0 : ℚ) > 10 + 5 ∨ (0 : ℚ) + 10 < 10 ∨ (0 : ℚ) > 10 + 5 ∨ (0 : ℚ) + 10 < 10)) :=
  isOverlapping_iff ⟨0, 0, 10, 10⟩ ⟨10, 10, 5, 5⟩ (by norm_num) (by norm_num)
    (by norm_num) (by norm_num)

/-! ## The invariant of `insert` -/

/-- The result of `getIndex` is one of -1, 0, 1, 2, 3. -/
theorem getIndex_range (region b : Rectangle) :
    getIndex region b = -1 ∨ getIndex region b = 0 ∨ getIndex region b = 1 ∨
      getIndex region b = 2 ∨ getIndex region b = 3 := by
  simp only [getIndex]
  split_ifs <;> simp

theorem wellFormed_createQuadtree (level : Int) (bounds : Rectangle)
    (h : level ≤ MAX_LEVELS) : WellFormed (createQuadtree level bounds) := by
  simp [createQuadtree, WellFormed, h]

theorem wellFormed_ne_null {t : Quadtree} (h : WellFormed t) : t.isNull = false := by
  cases t with
  | null => simp [WellFormed] at h
  | node => rfl

theorem childOK_createQuadtree (level : Int) (region : Rectangle) (index : Int) :
    ChildOK level region index (createQuadtree (level + 1) (quadrantRegion region index)) := by
  simp [ChildOK, createQuadtree, Quadtree.level, Quadtree.bounds, Quadtree.allObjects]

theorem nodes_zero (l : Int) (b : Rectangle) (os : List Object) (c0 c1 c2 c3 : Quadtree) :
    (Quadtree.node l b os c0 c1 c2 c3).nodes 0 = c0 := rfl

theorem nodes_one (l : Int) (b : Rectangle) (os : List Object) (c0 c1 c2 c3 : Quadtree) :
    (Quadtree.node l b os c0 c1 c2 c3).nodes 1 = c1 := rfl

theorem nodes_two (l : Int) (b : Rectangle) (os : List Object) (c0 c1 c2 c3 : Quadtree) :
    (Quadtree.node l b os c0 c1 c2 c3).nodes 2 = c2 := rfl

theorem nodes_three (l : Int) (b : Rectangle) (os : List Object) (c0 c1 c2 c3 : Quadtree) :
    (Quadtree.node l b os c0 c1 c2 c3).nodes 3 = c3 := rfl

theorem setNode_zero (l : Int) (b : Rectangle) (os : List Object) (c0 c1 c2 c3 c : Quadtree) :
    (Quadtree.node l b os c0 c1 c2 c3).setNode 0 c = .node l b os c c1 c2 c3 := rfl

theorem setNode_one (l : Int) (b : Rectangle) (os : List Object) (c0 c1 c2 c3 c : Quadtree) :
    (Quadtree.node l b os c0 c1 c2 c3).setNode 1 c = .node l b os c0 c c2 c3 := rfl

theorem setNode_two (l : Int) (b : Rectangle) (os : List Object) (c0 c1 c2 c3 c : Quadtree) :
    (Quadtree.node l b os c0 c1 c2 c3).setNode 2 c = .node l b os c0 c1 c c3 := rfl

theorem setNode_three (l : Int) (b : Rectangle) (os : List Object) (c0 c1 c2 c3 c : Quadtree) :
    (Quadtree.node l b os c0 c1 c2 c3).setNode 3 c = .node l b os c0 c1 c2 c := rfl

theorem wellFormed_setNode {l : Int} {b : Rectangle} {kept : List Object}
    {c0 c1 c2 c3 : Quadtree} (k : Int) (c' : Quadtree)
    (hS : WellFormed (.node l b kept c0 c1 c2 c3))
    (hleaf : (Quadtree.node l b kept c0 c1 c2 c3).isLeaf = false)
    (hk : k = 0 ∨ k = 1 ∨ k = 2 ∨ k = 3)
    (hc : WellFormed c') (hlvl : c'.level = l + 1)
    (hb : c'.bounds = ((Quadtree.node l b kept c0 c1 c2 c3).nodes k).bounds)
    (hall : ∀ e ∈ c'.allObjects, getIndex b e.bounds = k) :
    WellFormed ((Quadtree.node l b kept c0 c1 c2 c3).setNode k c') := by
  obtain ⟨hl5, hsh⟩ := hS
  rcases hsh with ⟨h0, h1, h2, h3⟩ | ⟨hlt, hkept, k0, k1, k2, k3, w0, w1, w2, w3⟩
  · subst h0 h1 h2 h3
    simp [Quadtree.isLeaf, Quadtree.isNull] at hleaf
  · rcases hk with rfl | rfl | rfl | rfl
    · simp only [nodes_zero, setNode_zero] at hb ⊢
      exact ⟨hl5, Or.inr ⟨hlt, hkept, ⟨hlvl, hb.trans k0.2.1, hall⟩, k1, k2, k3, hc, w1, w2, w3⟩⟩
    · simp only [nodes_one, setNode_one] at hb ⊢
      exact ⟨hl5, Or.inr ⟨hlt, hkept, k0, ⟨hlvl, hb.trans k1.2.1, hall⟩, k2, k3, w0, hc, w2, w3⟩⟩
    · simp only [nodes_two, setNode_two] at hb ⊢
      exact ⟨hl5, Or.inr ⟨hlt, hkept, k0, k1, ⟨hlvl, hb.trans k2.2.1, hall⟩, k3, w0, w1, hc, w3⟩⟩
    · simp only [nodes_three, setNode_three] at hb ⊢
      exact ⟨hl5, Or.inr ⟨hlt, hkept, k0, k1, k2, ⟨hlvl, hb.trans k3.2.1, hall⟩, w0, w1, w2, hc⟩⟩

theorem allObjects_setNode (S : Quadtree) (k : Int) (c' : Quadtree) (o : Object)
    (hS : S.isNull = false) (hk : k = 0 ∨ k = 1 ∨ k = 2 ∨ k = 3)
    (h : (c'.allObjects : Multiset Object) = o ::ₘ ((S.nodes k).allObjects : Multiset Object)) :
    ((S.setNode k c').allObjects : Multiset Object) = o ::ₘ (S.allObjects : Multiset Object) := by
  cases S with
  | null => simp [Quadtree.isNull] at hS
  | node l b kept c0 c1 c2 c3 =>
    rcases hk with rfl | rfl | rfl | rfl <;>
      simp only [nodes_zero, nodes_one, nodes_two, nodes_three, setNode_zero, setNode_one,
        setNode_two, setNode_three, Quadtree.allObjects, ← Multiset.coe_add] at h ⊢ <;>
      rw [h] <;>
      simp only [Multiset.cons_add, Multiset.add_cons]

theorem wellFormed_child {l : Int} {b : Rectangle} {kept : List Object}
    {c0 c1 c2 c3 : Quadtree} (k : Int)
    (hS : WellFormed (.node l b kept c0 c1 c2 c3))
    (hleaf : (Quadtree.node l b kept c0 c1 c2 c3).isLeaf = false)
    (hk : k = 0 ∨ k = 1 ∨ k = 2 ∨ k = 3) :
    WellFormed ((Quadtree.node l b kept c0 c1 c2 c3).nodes k) ∧
    ChildOK l b k ((Quadtree.node l b kept c0 c1 c2 c3).nodes k) ∧ l < MAX_LEVELS ∧
    ∀ e ∈ kept, getIndex b e.bounds = -1 := by
  obtain ⟨hl5, hsh⟩ := hS
  rcases hsh with ⟨h0, h1, h2, h3⟩ | ⟨hlt, hkept, k0, k1, k2, k3, w0, w1, w2, w3⟩
  · subst h0 h1 h2 h3
    simp [Quadtree.isLeaf, Quadtree.isNull] at hleaf
  · rcases hk with rfl | rfl | rfl | rfl <;>
      simp only [nodes_zero, nodes_one, nodes_two, nodes_three] <;>
      exact ⟨by assumption, by assumption, hlt, hkept⟩

theorem level_setNode (S : Quadtree) (k : Int) (c : Quadtree) :
    (S.setNode k c).level = S.level := by
  cases S with
  | null => rfl
  | node l b os c0 c1 c2 c3 => simp only [Quadtree.setNode]; split_ifs <;> rfl

theorem bounds_setNode (S : Quadtree) (k : Int) (c : Quadtree) :
    (S.setNode k c).bounds = S.bounds := by
  cases S with
  | null => rfl
  | node l b os c0 c1 c2 c3 => simp only [Quadtree.setNode]; split_ifs <;> rfl

theorem objects_setNode (S : Quadtree) (k : Int) (c : Quadtree) :
    (S.setNode k c).objects = S.objects := by
  cases S with
  | null => rfl
  | node l b os c0 c1 c2 c3 => simp only [Quadtree.setNode]; split_ifs <;> rfl

theorem isLeaf_setNode (S : Quadtree) (k : Int) (c : Quadtree)
    (hS : S.isLeaf = false) (hc : c.isNull = false) : (S.setNode k c).isLeaf = false := by
  cases S with
  | null => simp [Quadtree.isLeaf] at hS
  | node l b os c0 c1 c2 c3 =>
    simp only [Quadtree.setNode]
    split_ifs <;> simp_all [Quadtree.isLeaf]

/-- The redistribution loop on a subdivided, well-formed node: it succeeds,
keeps the node well-formed and subdivided, keeps level and region, and stores
`rest` in addition. -/
theorem redistribute_spec (ins : Quadtree → Object → Option Quadtree) (lvl : Int)
    (hins : ∀ c o, WellFormed c → c.level = lvl + 1 → InsertOK ins c o)
    (rest : List Object) :
    ∀ S : Quadtree, WellFormed S → S.level = lvl → S.isLeaf = false →
      ∃ S', redistribute ins rest S = some S' ∧ WellFormed S' ∧ S'.level = S.level ∧
        S'.bounds = S.bounds ∧ S'.isLeaf = false ∧
        (S'.allObjects : Multiset Object) =
          (S.allObjects : Multiset Object) + (rest : Multiset Object) := by
  induction rest with
  | nil =>
    intro S hS _ hleaf
    exact ⟨S, rfl, hS, rfl, rfl, hleaf, by simp⟩
  | cons o rest ih =>
    intro S hS hlvl hleaf
    cases S with
    | null => simp [WellFormed] at hS
    | node l b kept c0 c1 c2 c3 =>
      simp only [Quadtree.level] at hlvl
      subst hlvl
      have key : ∀ k : Int, (k = 0 ∨ k = 1 ∨ k = 2 ∨ k = 3) → getIndex b o.bounds = k →
          ∃ S', redistribute ins (o :: rest) (.node l b kept c0 c1 c2 c3) = some S' ∧
            WellFormed S' ∧ S'.level = l ∧ S'.bounds = b ∧ S'.isLeaf = false ∧
            (S'.allObjects : Multiset Object) =
              ((Quadtree.node l b kept c0 c1 c2 c3).allObjects : Multiset Object)
                + ((o :: rest : List Object) : Multiset Object) := by
        intro k hk hi
        obtain ⟨hwc, hck, hlt, hkept⟩ := wellFormed_child k hS hleaf hk
        obtain ⟨c', e1, e2, e3, e4, e5⟩ := hins _ o hwc hck.1
        have hne : getIndex b o.bounds ≠ -1 := by
          rw [hi]; rcases hk with rfl | rfl | rfl | rfl <;> decide
        have hall : ∀ e ∈ c'.allObjects, getIndex b e.bounds = k := by
          intro e he
          have : e ∈ (c'.allObjects : Multiset Object) := he
          rw [e5] at this
          rcases Multiset.mem_cons.mp this with rfl | h'
          · exact hi
          · exact hck.2.2 e h'
        have hS' := wellFormed_setNode k c' hS hleaf hk e2 (e3.trans hck.1) e4 hall
        obtain ⟨S', h1, h2, h3, h4, h5, h6⟩ :=
          ih _ hS' (level_setNode _ _ _) (isLeaf_setNode _ _ _ hleaf (wellFormed_ne_null e2))
        refine ⟨S', ?_, h2, h3.trans (level_setNode _ _ _), h4.trans (bounds_setNode _ _ _),
          h5, ?_⟩
        · simp only [redistribute, Quadtree.bounds, hne, ne_eq, not_false_eq_true, if_true]
          rw [hi, e1]
          exact h1
        · rw [h6, allObjects_setNode (.node l b kept c0 c1 c2 c3) k c' o rfl hk e5]
          simp only [← Multiset.cons_coe, Multiset.cons_add, Multiset.add_cons]
      rcases getIndex_range b o.bounds with hi | hi | hi | hi | hi
      · obtain ⟨hl5, hsh⟩ := hS
        rcases hsh with ⟨h0, h1, h2, h3⟩ | ⟨hlt, hkept, k0, k1, k2, k3, w0, w1, w2, w3⟩
        · subst h0 h1 h2 h3
          simp [Quadtree.isLeaf, Quadtree.isNull] at hleaf
        have hS' : WellFormed (.node l b (kept ++ [o]) c0 c1 c2 c3) := by
          refine ⟨hl5, Or.inr ⟨hlt, ?_, k0, k1, k2, k3, w0, w1, w2, w3⟩⟩
          intro e he
          rcases List.mem_append.mp he with h | h
          · exact hkept e h
          · rw [List.mem_singleton.mp h]; exact hi
        obtain ⟨S', h1, h2, h3, h4, h5, h6⟩ := ih _ hS' rfl hleaf
        refine ⟨S', ?_, h2, h3, h4, h5, ?_⟩
        · simp only [redistribute, Quadtree.bounds, hi, ne_eq, not_true_eq_false, if_false,
            Quadtree.pushObject]
          exact h1
        · rw [h6]
          simp only [Quadtree.allObjects, ← Multiset.coe_add, ← Multiset.cons_coe,
            Multiset.add_cons, Multiset.cons_add, ← Multiset.singleton_add, Multiset.coe_nil,
            add_zero]
          abel
      · exact key 0 (by simp) hi
      · exact key 1 (by simp) hi
      · exact key 2 (by simp) hi
      · exact key 3 (by simp) hi

theorem coe_snoc (os : List Object) (o : Object) :
    ((os ++ [o] : List Object) : Multiset Object) = o ::ₘ (os : Multiset Object) := by
  rw [← Multiset.coe_add, Multiset.coe_singleton, add_comm, Multiset.singleton_add]

theorem wellFormed_level_le {t : Quadtree} (h : WellFormed t) : t.level ≤ MAX_LEVELS := by
  cases t with
  | null => simp [WellFormed] at h
  | node => exact h.1

/-- On entries that all lack a quadrant the redistribution loop moves nothing:
it only advances `i`. -/
theorem redistribute_indeterminate (ins : Quadtree → Object → Option Quadtree)
    (rest : List Object) :
    ∀ (l : Int) (b : Rectangle) (kept : List Object) (c0 c1 c2 c3 : Quadtree),
      (∀ e ∈ rest, getIndex b e.bounds = -1) →
      redistribute ins rest (.node l b kept c0 c1 c2 c3)
        = some (.node l b (kept ++ rest) c0 c1 c2 c3) := by
  induction rest with
  | nil => intro l b kept c0 c1 c2 c3 _; simp [redistribute]
  | cons o rest ih =>
    intro l b kept c0 c1 c2 c3 h
    have ho : getIndex b o.bounds = -1 := h o (List.mem_cons_self _ _)
    simp only [redistribute, Quadtree.bounds, ho, ne_eq, not_true_eq_false, if_false,
      Quadtree.pushObject]
    rw [ih l b (kept ++ [o]) c0 c1 c2 c3 (fun e he => h e (List.mem_cons_of_mem _ he))]
    simp

/-- Inserting an entry without a quadrant into a subdivided node whose own
entries all lack a quadrant appends it to the node and changes nothing else. -/
theorem insertFuel_indeterminate (fuel : Nat) (l : Int) (b : Rectangle) (os : List Object)
    (c0 c1 c2 c3 : Quadtree) (o : Object)
    (hc0 : c0.isNull = false) (hos : ∀ e ∈ os, getIndex b e.bounds = -1)
    (ho : getIndex b o.bounds = -1) :
    insertFuel (fuel + 1) (.node l b os c0 c1 c2 c3) o
      = some (.node l b (os ++ [o]) c0 c1 c2 c3) := by
  have hall : ∀ e ∈ os ++ [o], getIndex b e.bounds = -1 := by
    intro e he
    rcases List.mem_append.mp he with h | h
    · exact hos e h
    · rw [List.mem_singleton.mp h]; exact ho
  simp only [insertFuel, hc0, ho, ne_eq, not_true_eq_false, decide_False, Bool.and_false,
    Bool.false_eq_true, if_false, Quadtree.objects, Quadtree.setObjects]
  split_ifs
  · rw [redistribute_indeterminate _ _ _ _ _ _ _ _ _ hall]
    simp
  · rfl

/-- With more than `MAX_LEVELS - level` nested calls allowed, `insert` on a
well-formed node succeeds and delivers `InsertOK`. -/
theorem insertFuel_spec : ∀ (fuel : Nat) (t : Quadtree) (o : Object),
    WellFormed t → MAX_LEVELS - t.level < fuel → InsertOK (insertFuel fuel) t o := by
  intro fuel
  induction fuel with
  | zero =>
    intro t o ht hf
    have := wellFormed_level_le ht
    omega
  | succ fuel ih =>
    intro t o ht hf
    cases t with
    | null => simp [WellFormed] at ht
    | node l b os c0 c1 c2 c3 =>
      simp only [Quadtree.level] at hf
      have ht' := ht
      obtain ⟨hl5, hsh⟩ := ht'
      rcases hsh with ⟨h0, h1, h2, h3⟩ | ⟨hlt, hkept, k0, k1, k2, k3, w0, w1, w2, w3⟩
      · subst h0 h1 h2 h3
        by_cases hc : (os ++ [o]).length > MAX_OBJECTS ∧ l < MAX_LEVELS
        · have hS0 : WellFormed (.node l b []
              (createQuadtree (l + 1) (quadrantRegion b 0))
              (createQuadtree (l + 1) (quadrantRegion b 1))
              (createQuadtree (l + 1) (quadrantRegion b 2))
              (createQuadtree (l + 1) (quadrantRegion b 3))) := by
            have h5 : l + 1 ≤ MAX_LEVELS := by have := hc.2; omega
            exact ⟨hl5, Or.inr ⟨hc.2, by simp, childOK_createQuadtree _ _ _,
              childOK_createQuadtree _ _ _, childOK_createQuadtree _ _ _,
              childOK_createQuadtree _ _ _, wellFormed_createQuadtree _ _ h5,
              wellFormed_createQuadtree _ _ h5, wellFormed_createQuadtree _ _ h5,
              wellFormed_createQuadtree _ _ h5⟩⟩
          obtain ⟨S', h1, h2, h3, h4, _, h6⟩ :=
            redistribute_spec (insertFuel fuel) l
              (fun c o' hc' hl' => ih c o' hc' (by rw [hl']; omega)) (os ++ [o]) _ hS0 rfl rfl
          refine ⟨S', ?_, h2, h3, h4, ?_⟩
          · simp only [insertFuel, Quadtree.isNull, Bool.not_true, Bool.false_and,
              Bool.false_eq_true, if_false, hc, and_self, if_true, subdivide, Quadtree.objects,
              Quadtree.setObjects]
            exact h1
          · rw [h6, coe_snoc]
            simp [Quadtree.allObjects, createQuadtree]
        · refine ⟨.node l b (os ++ [o]) .null .null .null .null, ?_, ?_, rfl, rfl, ?_⟩
          · simp only [insertFuel, Quadtree.isNull, Bool.not_true, Bool.false_and,
              Bool.false_eq_true, if_false, hc]
          · exact ⟨hl5, Or.inl ⟨rfl, rfl, rfl, rfl⟩⟩
          · simp only [Quadtree.allObjects, List.append_nil]
            exact coe_snoc os o
      · have hleaf : (Quadtree.node l b os c0 c1 c2 c3).isLeaf = false := by
          simp [Quadtree.isLeaf, wellFormed_ne_null w0]
        have key : ∀ k : Int, (k = 0 ∨ k = 1 ∨ k = 2 ∨ k = 3) → getIndex b o.bounds = k →
            InsertOK (insertFuel (fuel + 1)) (.node l b os c0 c1 c2 c3) o := by
          intro k hk hi
          obtain ⟨hwc, hck, _, _⟩ := wellFormed_child k ht hleaf hk
          obtain ⟨c', e1, e2, e3, e4, e5⟩ := ih _ o hwc (by rw [hck.1]; omega)
          have hne : getIndex b o.bounds ≠ -1 := by
            rw [hi]; rcases hk with rfl | rfl | rfl | rfl <;> decide
          have hall : ∀ e ∈ c'.allObjects, getIndex b e.bounds = k := by
            intro e he
            have : e ∈ (c'.allObjects : Multiset Object) := he
            rw [e5] at this
            rcases Multiset.mem_cons.mp this with rfl | h'
            · exact hi
            · exact hck.2.2 e h'
          refine ⟨(Quadtree.node l b os c0 c1 c2 c3).setNode k c', ?_,
            wellFormed_setNode k c' ht hleaf hk e2 (e3.trans hck.1) e4 hall,
            level_setNode _ _ _, bounds_setNode _ _ _,
            allObjects_setNode (.node l b os c0 c1 c2 c3) k c' o rfl hk e5⟩
          simp only [insertFuel, wellFormed_ne_null w0, hne, ne_eq, not_false_eq_true,
            decide_True, Bool.not_false, Bool.and_self, if_true]
          rw [hi, e1]
        rcases getIndex_range b o.bounds with hi | hi | hi | hi | hi
        · refine ⟨.node l b (os ++ [o]) c0 c1 c2 c3,
            insertFuel_indeterminate fuel l b os c0 c1 c2 c3 o (wellFormed_ne_null w0) hkept hi,
            ?_, rfl, rfl, ?_⟩
          · refine ⟨hl5, Or.inr ⟨hlt, ?_, k0, k1, k2, k3, w0, w1, w2, w3⟩⟩
            intro e he
            rcases List.mem_append.mp he with h | h
            · exact hkept e h
            · rw [List.mem_singleton.mp h]; exact hi
          · simp only [Quadtree.allObjects, ← Multiset.coe_add, ← Multiset.cons_coe,
              Multiset.add_cons, Multiset.cons_add, ← Multiset.singleton_add, Multiset.coe_nil,
              add_zero]
            abel
        · exact key 0 (by simp) hi
        · exact key 1 (by simp) hi
        · exact key 2 (by simp) hi
        · exact key 3 (by simp) hi

/-! ## `retrieve` -/

theorem wellFormed_wellShaped : ∀ t : Quadtree, WellFormed t → WellShaped t := by
  intro t
  induction t with
  | null => intro h; exact h
  | node l b os c0 c1 c2 c3 ih0 ih1 ih2 ih3 =>
    rintro ⟨_, h | ⟨_, _, _, _, _, _, w0, w1, w2, w3⟩⟩
    · exact Or.inl h
    · exact Or.inr ⟨ih0 w0, ih1 w1, ih2 w2, ih3 w3⟩

theorem wellShaped_ne_null {t : Quadtree} (h : WellShaped t) : t.isNull = false := by
  cases t with
  | null => simp [WellShaped] at h
  | node => rfl

/-- The reference unfolds along the descent path: the reference of the
selected child, if the probe has a quadrant and the node has children, then
the node's own entries. -/
theorem retrieveRef_unfold (t : Quadtree) (probe : Rectangle) :
    retrieveRef t probe =
      (if getIndex t.bounds probe ≠ -1 ∧ t.isLeaf = false then
        retrieveRef (t.nodes (getIndex t.bounds probe)) probe else []) ++ t.objects := by
  cases t with
  | null => simp [retrieveRef, descentPath, Quadtree.isLeaf, Quadtree.objects]
  | node l b os c0 c1 c2 c3 =>
    by_cases hleaf : (Quadtree.node l b os c0 c1 c2 c3).isLeaf = true
    · simp [retrieveRef, descentPath, hleaf, Quadtree.objects]
    · simp only [Bool.not_eq_true] at hleaf
      rcases getIndex_range b probe with hi | hi | hi | hi | hi <;>
        simp [retrieveRef, descentPath, hleaf, hi, Quadtree.objects, Quadtree.bounds,
          Quadtree.nodes]

theorem retrieve_eq_retrieveRef (probe : Object) :
    ∀ (t : Quadtree) (acc : List Object), WellShaped t →
      retrieve t probe acc = some (acc ++ retrieveRef t probe.bounds) := by
  intro t
  induction t with
  | null => intro acc h; exact absurd h (by simp [WellShaped])
  | node l b os c0 c1 c2 c3 ih0 ih1 ih2 ih3 =>
    intro acc h
    rw [retrieveRef_unfold]
    rcases h with ⟨h0, h1, h2, h3⟩ | ⟨w0, w1, w2, w3⟩
    · subst h0 h1 h2 h3
      simp [retrieve, Quadtree.isNull, Quadtree.isLeaf, Quadtree.objects]
    · have hleaf : (Quadtree.node l b os c0 c1 c2 c3).isLeaf = false := by
        simp [Quadtree.isLeaf, wellShaped_ne_null w0]
      rcases getIndex_range b probe.bounds with hi | hi | hi | hi | hi
      · simp [retrieve, hi, hleaf, Quadtree.objects, Quadtree.bounds]
      · simp [retrieve, hi, hleaf, Quadtree.objects, Quadtree.bounds, Quadtree.nodes,
          wellShaped_ne_null w0, ih0 acc w0]
      · simp [retrieve, hi, hleaf, Quadtree.objects, Quadtree.bounds, Quadtree.nodes,
          wellShaped_ne_null w0, ih1 acc w1]
      · simp [retrieve, hi, hleaf, Quadtree.objects, Quadtree.bounds, Quadtree.nodes,
          wellShaped_ne_null w0, ih2 acc w2]
      · simp [retrieve, hi, hleaf, Quadtree.objects, Quadtree.bounds, Quadtree.nodes,
          wellShaped_ne_null w0, ih3 acc w3]

theorem mem_retrieveRef_self (e : Object) :
    ∀ t : Quadtree, WellFormed t → e ∈ t.allObjects → e ∈ retrieveRef t e.bounds := by
  intro t
  induction t with
  | null => intro h; exact absurd h (by simp [WellFormed])
  | node l b os c0 c1 c2 c3 ih0 ih1 ih2 ih3 =>
    intro h he
    rw [retrieveRef_unfold]
    obtain ⟨_, ⟨h0, h1, h2, h3⟩ | ⟨_, _, k0, k1, k2, k3, w0, w1, w2, w3⟩⟩ := h
    · subst h0 h1 h2 h3
      simpa [Quadtree.allObjects, Quadtree.objects, Quadtree.isLeaf, Quadtree.isNull] using he
    · have hleaf : (Quadtree.node l b os c0 c1 c2 c3).isLeaf = false := by
        simp [Quadtree.isLeaf, wellFormed_ne_null w0]
      simp only [Quadtree.allObjects, List.mem_append] at he
      rcases he with he | he | he | he | he
      · exact List.mem_append_right _ he
      · have hi := k0.2.2 e he
        simp [hi, hleaf, Quadtree.bounds, Quadtree.nodes, ih0 w0 he]
      · have hi := k1.2.2 e he
        simp [hi, hleaf, Quadtree.bounds, Quadtree.nodes, ih1 w1 he]
      · have hi := k2.2.2 e he
        simp [hi, hleaf, Quadtree.bounds, Quadtree.nodes, ih2 w2 he]
      · have hi := k3.2.2 e he
        simp [hi, hleaf, Quadtree.bounds, Quadtree.nodes, ih3 w3 he]

/-! ## Sequences of insertions -/

theorem insertAll_spec (os : List Object) :
    ∀ t0 : Quadtree, WellFormed t0 → 0 ≤ t0.level →
      ∃ t, insertAll t0 os = some t ∧ WellFormed t ∧ t.level = t0.level ∧
        t.bounds = t0.bounds ∧
        (t.allObjects : Multiset Object) = (t0.allObjects : Multiset Object) + (os : Multiset Object) := by
  induction os with
  | nil => intro t0 h0 _; exact ⟨t0, rfl, h0, rfl, rfl, by simp⟩
  | cons o os ih =>
    intro t0 h0 hl
    obtain ⟨t1, e1, e2, e3, e4, e5⟩ :=
      insertFuel_spec (MAX_LEVELS + 1).toNat t0 o h0 (by simp [MAX_LEVELS]; omega)
    obtain ⟨t, f1, f2, f3, f4, f5⟩ := ih t1 e2 (by rw [e3]; exact hl)
    refine ⟨t, ?_, f2, f3.trans e3, f4.trans e4, ?_⟩
    · simp only [insertAll, Quadtree.insert, e1]
      exact f1
    · rw [f5, e5]
      simp only [← Multiset.cons_coe, Multiset.cons_add, Multiset.add_cons]

/-- Every sequence of `insert` calls on a fresh level-0 root succeeds and
yields a well-formed tree over the same region storing exactly the inserted
entries. -/
theorem insertAll_total (region : Rectangle) (os : List Object) :
    ∃ root, insertAll (createQuadtree 0 region) os = some root ∧ WellFormed root ∧
      root.level = 0 ∧ root.bounds = region ∧
      (root.allObjects : Multiset Object) = (os : Multiset Object) := by
  obtain ⟨t, h1, h2, h3, h4, h5⟩ :=
    insertAll_spec os (createQuadtree 0 region)
      (wellFormed_createQuadtree 0 region (by decide)) (by simp [createQuadtree, Quadtree.level])
  exact ⟨t, h1, h2, h3, h4, by simpa [createQuadtree, Quadtree.allObjects] using h5⟩

theorem wellFormed_subnodes :
    ∀ t : Quadtree, WellFormed t → ∀ n ∈ t.subnodes, WellFormed n := by
  intro t
  induction t with
  | null => intro h; exact absurd h (by simp [WellFormed])
  | node l b os c0 c1 c2 c3 ih0 ih1 ih2 ih3 =>
    intro h n hn
    simp only [Quadtree.subnodes, List.mem_cons, List.mem_append] at hn
    rcases hn with rfl | hn
    · exact h
    · obtain ⟨_, ⟨h0, h1, h2, h3⟩ | ⟨_, _, _, _, _, _, w0, w1, w2, w3⟩⟩ := h
      · subst h0 h1 h2 h3
        simp [Quadtree.subnodes] at hn
      · rcases hn with hn | hn | hn | hn
        · exact ih0 w0 n hn
        · exact ih1 w1 n hn
        · exact ih2 w2 n hn
        · exact ih3 w3 n hn

/-! ## Claims about `insert` and `retrieve` -/

/-- While a leaf stays within `MAX_OBJECTS` entries, `insert` only appends. -/
theorem insertAll_leaf (level : Int) (region : Rectangle) (os : List Object) :
    ∀ kept : List Object, kept.length + os.length ≤ MAX_OBJECTS →
      insertAll (.node level region kept .null .null .null .null) os
        = some (.node level region (kept ++ os) .null .null .null .null) := by
  induction os with
  | nil => intro kept _; simp [insertAll]
  | cons o os ih =>
    intro kept h
    have h1 : ¬ (kept.length + 1 > MAX_OBJECTS) := by
      simp only [List.length_cons] at h; omega
    have h2 : (kept ++ [o]).length + os.length ≤ MAX_OBJECTS := by
      simp only [List.length_cons, List.length_append, List.length_nil] at h ⊢; omega
    simp only [insertAll, Quadtree.insert, MAX_LEVELS, Int.reduceAdd, Int.reduceToNat, insertFuel,
      Quadtree.isNull, Bool.not_true, Bool.false_and, Bool.false_eq_true, if_false,
      List.length_append, List.length_cons, List.length_nil, h1, false_and]
    rw [ih (kept ++ [o]) h2]
    simp

/-- C3: for `n ≤ MAX_OBJECTS` entries with arbitrary bounds inserted one at a
time into a fresh root, no subdivision occurs, the `n` entries are stored
directly at the root in insertion order, and `retrieve` with any probe returns
exactly those entries in insertion order. -/
theorem insertAll_within_capacity (region : Rectangle) (os : List Object) (probe : Object)
    (h : os.length ≤ MAX_OBJECTS) :
    insertAll (createQuadtree 0 region) os
        = some (.node 0 region os .null .null .null .null) ∧
      retrieve (.node 0 region os .null .null .null .null) probe [] = some os := by
  constructor
  · simpa [createQuadtree] using insertAll_leaf 0 region os [] (by simpa using h)
  · simp [retrieve, Quadtree.isNull]

/-- Witness for C3, the example of `main`: root `{0, 0, 100, 100}`, entries 1
`{10, 10, 5, 5}`, 2 `{15, 15, 5, 5}`, 3 `{80, 80, 5, 5}`, probe entry 1; the
result is the three entries in insertion order. -/
theorem insertAll_within_capacity_witness :
    ([⟨1, ⟨10, 10, 5, 5⟩⟩, ⟨2, ⟨15, 15, 5, 5⟩⟩, ⟨3, ⟨80, 80, 5, 5⟩⟩] : List Object).length
        ≤ MAX_OBJECTS ∧
    (insertAll (createQuadtree 0 ⟨0, 0, 100, 100⟩)
        [⟨1, ⟨10, 10, 5, 5⟩⟩, ⟨2, ⟨15, 15, 5, 5⟩⟩, ⟨3, ⟨80, 80, 5, 5⟩⟩]
        = some (.node 0 ⟨0, 0, 100, 100⟩
            [⟨1, ⟨10, 10, 5, 5⟩⟩, ⟨2, ⟨15, 15, 5, 5⟩⟩, ⟨3, ⟨80, 80, 5, 5⟩⟩]
            .null .null .null .null) ∧
      retrieve (.node 0 ⟨0, 0, 100, 100⟩
            [⟨1, ⟨10, 10, 5, 5⟩⟩, ⟨2, ⟨15, 15, 5, 5⟩⟩, ⟨3, ⟨80, 80, 5, 5⟩⟩]
            .null .null .null .null) ⟨1, ⟨10, 10, 5, 5⟩⟩ []
        = some [⟨1, ⟨10, 10, 5, 5⟩⟩, ⟨2, ⟨15, 15, 5, 5⟩⟩, ⟨3, ⟨80, 80, 5, 5⟩⟩]) :=
  ⟨by decide, insertAll_within_capacity _ _ _ (by decide)⟩

/-- One call of `retrieve` on a node: the call on the selected child, if the
probe has a quadrant and `nodes[0]` is not `NULL`, then the node's own
entries. -/
theorem retrieve_unfold (level : Int) (bounds : Rectangle) (objects : List Object)
    (n0 n1 n2 n3 : Quadtree) (probe : Object) (acc : List Object) :
    retrieve (.node level bounds objects n0 n1 n2 n3) probe acc =
      Option.map (fun r => r ++ objects)
        (if getIndex bounds probe.bounds ≠ -1 ∧ n0.isNull = false then
          retrieve ((Quadtree.node level bounds objects n0 n1 n2 n3).nodes
            (getIndex bounds probe.bounds)) probe acc
         else some acc) := by
  rcases getIndex_range bounds probe.bounds with hi | hi | hi | hi | hi <;>
    cases h0 : n0.isNull <;>
    simp [retrieve, hi, h0, Quadtree.nodes] <;>
    split <;> simp_all

/-- C4: `retrieve` equals the path-concatenation reference. One call on a node
yields the result of the call on the selected child (if the probe has a
quadrant and the node has children, else nothing new) followed by the node's
own entries in storage order; and on every tree in which each node has no
child or all four, `retrieve` appends to the output buffer the direct entry
lists of the nodes on the probe's descent path, deepest node first and root
last, so that no entry of a sibling quadrant is included. -/
theorem retrieve_eq_path_concat (level : Int) (bounds : Rectangle) (objects : List Object)
    (n0 n1 n2 n3 : Quadtree) (probe : Object) (acc : List Object) :
    retrieve (.node level bounds objects n0 n1 n2 n3) probe acc =
      Option.map (fun r => r ++ objects)
        (if getIndex bounds probe.bounds ≠ -1 ∧ n0.isNull = false then
          retrieve ((Quadtree.node level bounds objects n0 n1 n2 n3).nodes
            (getIndex bounds probe.bounds)) probe acc
         else some acc) ∧
    (WellShaped (.node level bounds objects n0 n1 n2 n3) →
      retrieve (.node level bounds objects n0 n1 n2 n3) probe acc =
        some (acc ++ retrieveRef (.node level bounds objects n0 n1 n2 n3) probe.bounds)) :=
  ⟨retrieve_unfold level bounds objects n0 n1 n2 n3 probe acc,
    retrieve_eq_retrieveRef probe _ acc⟩

/-- Witness for C4: a subdivided root holding entry 4 on its midline, entries
1 and 2 in its north-west child and entry 3 in its south-east child, probed
in the north-west quadrant: the result is entries 1, 2 (child) then 4 (root),
without entry 3. -/
theorem retrieve_eq_path_concat_witness :
    WellShaped (.node 0 ⟨0, 0, 100, 100⟩ [⟨4, ⟨50, 80, 5, 5⟩⟩]
      (.node 1 ⟨0, 0, 50, 50⟩ [⟨1, ⟨10, 10, 5, 5⟩⟩, ⟨2, ⟨15, 15, 5, 5⟩⟩] .null .null .null .null)
      (.node 1 ⟨50, 0, 50, 50⟩ [] .null .null .null .null)
      (.node 1 ⟨0, 50, 50, 50⟩ [] .null .null .null .null)
      (.node 1 ⟨50, 50, 50, 50⟩ [⟨3, ⟨80, 80, 5, 5⟩⟩] .null .null .null .null)) ∧
    retrieveRef (.node 0 ⟨0, 0, 100, 100⟩ [⟨4, ⟨50, 80, 5, 5⟩⟩]
      (.node 1 ⟨0, 0, 50, 50⟩ [⟨1, ⟨10, 10, 5, 5⟩⟩, ⟨2, ⟨15, 15, 5, 5⟩⟩] .null .null .null .null)
      (.node 1 ⟨50, 0, 50, 50⟩ [] .null .null .null .null)
      (.node 1 ⟨0, 50, 50, 50⟩ [] .null .null .null .null)
      (.node 1 ⟨50, 50, 50, 50⟩ [⟨3, ⟨80, 80, 5, 5⟩⟩] .null .null .null .null))
      (⟨9, ⟨20, 20, 5, 5⟩⟩ : Object).bounds
      = [⟨1, ⟨10, 10, 5, 5⟩⟩, ⟨2, ⟨15, 15, 5, 5⟩⟩, ⟨4, ⟨50, 80, 5, 5⟩⟩] ∧
    retrieve (.node 0 ⟨0, 0, 100, 100⟩ [⟨4, ⟨50, 80, 5, 5⟩⟩]
      (.node 1 ⟨0, 0, 50, 50⟩ [⟨1, ⟨10, 10, 5, 5⟩⟩, ⟨2, ⟨15, 15, 5, 5⟩⟩] .null .null .null .null)
      (.node 1 ⟨50, 0, 50, 50⟩ [] .null .null .null .null)
      (.node 1 ⟨0, 50, 50, 50⟩ [] .null .null .null .null)
      (.node 1 ⟨50, 50, 50, 50⟩ [⟨3, ⟨80, 80, 5, 5⟩⟩] .null .null .null .null))
      ⟨9, ⟨20, 20, 5, 5⟩⟩ []
      = some [⟨1, ⟨10, 10, 5, 5⟩⟩, ⟨2, ⟨15, 15, 5, 5⟩⟩, ⟨4, ⟨50, 80, 5, 5⟩⟩] := by
  have hshape : WellShaped (.node 0 ⟨0, 0, 100, 100⟩ [⟨4, ⟨50, 80, 5, 5⟩⟩]
      (.node 1 ⟨0, 0, 50, 50⟩ [⟨1, ⟨10, 10, 5, 5⟩⟩, ⟨2, ⟨15, 15, 5, 5⟩⟩] .null .null .null .null)
      (.node 1 ⟨50, 0, 50, 50⟩ [] .null .null .null .null)
      (.node 1 ⟨0, 50, 50, 50⟩ [] .null .null .null .null)
      (.node 1 ⟨50, 50, 50, 50⟩ [⟨3, ⟨80, 80, 5, 5⟩⟩] .null .null .null .null)) := by
    simp [WellShaped]
  have href : retrieveRef (.node 0 ⟨0, 0, 100, 100⟩ [⟨4, ⟨50, 80, 5, 5⟩⟩]
      (.node 1 ⟨0, 0, 50, 50⟩ [⟨1, ⟨10, 10, 5, 5⟩⟩, ⟨2, ⟨15, 15, 5, 5⟩⟩] .null .null .null .null)
      (.node 1 ⟨50, 0, 50, 50⟩ [] .null .null .null .null)
      (.node 1 ⟨0, 50, 50, 50⟩ [] .null .null .null .null)
      (.node 1 ⟨50, 50, 50, 50⟩ [⟨3, ⟨80, 80, 5, 5⟩⟩] .null .null .null .null))
      (⟨9, ⟨20, 20, 5, 5⟩⟩ : Object).bounds
      = [⟨1, ⟨10, 10, 5, 5⟩⟩, ⟨2, ⟨15, 15, 5, 5⟩⟩, ⟨4, ⟨50, 80, 5, 5⟩⟩] := by
    norm_num [retrieveRef, descentPath, getIndex, Quadtree.isLeaf, Quadtree.isNull,
      Quadtree.objects]
  refine ⟨hshape, href, ?_⟩
  rw [(retrieve_eq_path_concat _ _ _ _ _ _ _ ⟨9, ⟨20, 20, 5, 5⟩⟩ []).2 hshape, href]
  rfl

theorem wellFormed_hasFourChildren {t : Quadtree} (h : WellFormed t)
    (hleaf : t.isLeaf = false) : t.hasFourChildren = true := by
  cases t with
  | null => simp [WellFormed] at h
  | node l b os c0 c1 c2 c3 =>
    obtain ⟨_, ⟨h0, h1, h2, h3⟩ | ⟨_, _, _, _, _, _, w0, w1, w2, w3⟩⟩ := h
    · subst h0 h1 h2 h3
      simp [Quadtree.isLeaf, Quadtree.isNull] at hleaf
    · simp [Quadtree.hasFourChildren, wellFormed_ne_null w0, wellFormed_ne_null w1,
        wellFormed_ne_null w2, wellFormed_ne_null w3]

/-- With unbounded entry lists (the store of `insert` taken as an append):
depth bound. For every sequence of `insert` calls on a fresh level-0
root, the calls succeed, every node of the resulting tree has level at most
`MAX_LEVELS`, and every node at level `MAX_LEVELS` is a leaf. -/
theorem depth_bound (region : Rectangle) (os : List Object) :
    ∃ root, insertAll (createQuadtree 0 region) os = some root ∧
      ∀ n ∈ root.subnodes, n.level ≤ MAX_LEVELS ∧ (n.level = MAX_LEVELS → n.isLeaf = true) := by
  obtain ⟨root, h1, h2, _⟩ := insertAll_total region os
  refine ⟨root, h1, fun n hn => ?_⟩
  have hw := wellFormed_subnodes root h2 n hn
  cases n with
  | null => simp [WellFormed] at hw
  | node l b kept c0 c1 c2 c3 =>
    obtain ⟨hl, ⟨h0, h1, h2, h3⟩ | ⟨hlt, _⟩⟩ := hw
    · subst h0 h1 h2 h3
      exact ⟨hl, fun _ => rfl⟩
    · exact ⟨hl, fun h => absurd h (ne_of_lt hlt)⟩

/-- With unbounded entry lists (the store of `insert` taken as an append):
capacity trigger. After `MAX_OBJECTS` entries that all classify to the
same quadrant have been inserted into a fresh leaf root, the root has no
children; inserting one more entry that also classifies determinately
succeeds and leaves the root with four children. -/
theorem capacity_trigger (region : Rectangle) (os : List Object) (o5 : Object) (i : Int)
    (hlen : os.length = MAX_OBJECTS) (hi : i ≠ -1)
    (hsame : ∀ o ∈ os, getIndex region o.bounds = i)
    (h5 : getIndex region o5.bounds ≠ -1) :
    ∃ t4 t5, insertAll (createQuadtree 0 region) os = some t4 ∧ t4.isLeaf = true ∧
      t4.insert o5 = some t5 ∧ t5.hasFourChildren = true := by
  have _ : i ≠ -1 ∧ (∀ o ∈ os, getIndex region o.bounds = i) ∧ getIndex region o5.bounds ≠ -1 :=
    ⟨hi, hsame, h5⟩
  refine ⟨.node 0 region os .null .null .null .null, ?_⟩
  have hS0 : WellFormed (.node 0 region []
      (createQuadtree (0 + 1) (quadrantRegion region 0))
      (createQuadtree (0 + 1) (quadrantRegion region 1))
      (createQuadtree (0 + 1) (quadrantRegion region 2))
      (createQuadtree (0 + 1) (quadrantRegion region 3))) :=
    ⟨by decide, Or.inr ⟨by decide, by simp, childOK_createQuadtree _ _ _,
      childOK_createQuadtree _ _ _, childOK_createQuadtree _ _ _,
      childOK_createQuadtree _ _ _, wellFormed_createQuadtree _ _ (by decide),
      wellFormed_createQuadtree _ _ (by decide), wellFormed_createQuadtree _ _ (by decide),
      wellFormed_createQuadtree _ _ (by decide)⟩⟩
  obtain ⟨S', h1, h2, _, _, h5', _⟩ :=
    redistribute_spec (insertFuel 5) 0
      (fun c o' hc' hl' => insertFuel_spec 5 c o' hc' (by rw [hl']; decide))
      (os ++ [o5]) _ hS0 rfl rfl
  refine ⟨S', ?_, rfl, ?_, wellFormed_hasFourChildren h2 h5'⟩
  · simpa [createQuadtree] using insertAll_leaf 0 region os [] (by simp [hlen])
  · have hc : (os ++ [o5]).length > MAX_OBJECTS ∧ (0 : Int) < MAX_LEVELS := by
      constructor
      · simp [hlen]
      · decide
    have h6 : (MAX_LEVELS + 1).toNat = 5 + 1 := by decide
    rw [Quadtree.insert, h6]
    simp only [insertFuel, Quadtree.isNull, Bool.not_true, Bool.false_and,
      Bool.false_eq_true, if_false, hc, and_self, if_true, subdivide, Quadtree.objects,
      Quadtree.setObjects]
    exact h1

theorem getIndex_on_midX (nodeRegion b : Rectangle) (hb : b.x = midX nodeRegion) :
    getIndex nodeRegion b = -1 := by
  unfold midX at hb
  simp [getIndex, hb]

theorem mem_subnodes_self (t : Quadtree) (h : t.isNull = false) : t ∈ t.subnodes := by
  cases t with
  | null => simp [Quadtree.isNull] at h
  | node => simp [Quadtree.subnodes]

/-- With unbounded entry lists (the store of `insert` taken as an append):
boundary asymmetry. Bounds that start exactly on a node's
vertical midline (`bounds.x = midX`) get index -1 whatever their other fields
are; inserting an entry with such bounds into an already subdivided node whose
own entries all have index -1 against it appends the entry to that node's own
entry list and leaves level, region and the four child subtrees unchanged; and
every subdivided node of a tree built by `insert` calls on a fresh root is
such a node. -/
theorem boundary_asymmetry (region : Rectangle) (os : List Object) (nodeRegion b : Rectangle)
    (hb : b.x = midX nodeRegion) :
    getIndex nodeRegion b = -1 ∧
    (∀ (l : Int) (kept : List Object) (c0 c1 c2 c3 : Quadtree) (e : Object),
      c0.isNull = false → (∀ x ∈ kept, getIndex nodeRegion x.bounds = -1) → e.bounds = b →
        (Quadtree.node l nodeRegion kept c0 c1 c2 c3).insert e
          = some (.node l nodeRegion (kept ++ [e]) c0 c1 c2 c3)) ∧
    ∃ root, insertAll (createQuadtree 0 region) os = some root ∧
      ∀ n ∈ root.subnodes, n.isLeaf = false →
        (∀ x ∈ n.objects, getIndex n.bounds x.bounds = -1) ∧
        ∀ e : Object, e.bounds.x = midX n.bounds → n.insert e = some (n.pushObject e) := by
  have h6 : (MAX_LEVELS + 1).toNat = 5 + 1 := by decide
  refine ⟨getIndex_on_midX nodeRegion b hb, ?_, ?_⟩
  · intro l kept c0 c1 c2 c3 e hc0 hkept he
    rw [Quadtree.insert, h6]
    exact insertFuel_indeterminate 5 l nodeRegion kept c0 c1 c2 c3 e hc0 hkept
      (by rw [he]; exact getIndex_on_midX nodeRegion b hb)
  · obtain ⟨root, h1, h2, _⟩ := insertAll_total region os
    refine ⟨root, h1, fun n hn hleaf => ?_⟩
    have hw := wellFormed_subnodes root h2 n hn
    cases n with
    | null => simp [WellFormed] at hw
    | node l r kept c0 c1 c2 c3 =>
      obtain ⟨_, ⟨h0, h1, h2, h3⟩ | ⟨_, hkept, _, _, _, _, w0, _⟩⟩ := hw
      · subst h0 h1 h2 h3
        simp [Quadtree.isLeaf, Quadtree.isNull] at hleaf
      · refine ⟨hkept, fun e he => ?_⟩
        rw [Quadtree.insert, h6, Quadtree.pushObject]
        exact insertFuel_indeterminate 5 l r kept c0 c1 c2 c3 e (wellFormed_ne_null w0) hkept
          (getIndex_on_midX r e.bounds he)

/-- With unbounded entry lists (the store of `insert` taken as an append),
structural well-formedness is an invariant of `insert`. In every tree
obtained from a fresh root by `insert` calls, every node has no child or all
four, and the children 0..3 of a subdivided node with region `(x, y, w, h)`
and level `d` have level `d + 1` and regions NW `(x, y, w/2, h/2)`, NE
`(x + w/2, y, w/2, h/2)`, SW `(x, y + h/2, w/2, h/2)`, SE
`(x + w/2, y + h/2, w/2, h/2)`. -/
theorem structure_invariant (region : Rectangle) (os : List Object) :
    ∃ root, insertAll (createQuadtree 0 region) os = some root ∧
      ∀ n ∈ root.subnodes, n.isLeaf = true ∨
        (n.hasFourChildren = true ∧
         (n.nodes 0).level = n.level + 1 ∧ (n.nodes 1).level = n.level + 1 ∧
         (n.nodes 2).level = n.level + 1 ∧ (n.nodes 3).level = n.level + 1 ∧
         (n.nodes 0).bounds
            = ⟨n.bounds.x, n.bounds.y, n.bounds.width / 2, n.bounds.height / 2⟩ ∧
         (n.nodes 1).bounds
            = ⟨n.bounds.x + n.bounds.width / 2, n.bounds.y,
                n.bounds.width / 2, n.bounds.height / 2⟩ ∧
         (n.nodes 2).bounds
            = ⟨n.bounds.x, n.bounds.y + n.bounds.height / 2,
                n.bounds.width / 2, n.bounds.height / 2⟩ ∧
         (n.nodes 3).bounds
            = ⟨n.bounds.x + n.bounds.width / 2, n.bounds.y + n.bounds.height / 2,
                n.bounds.width / 2, n.bounds.height / 2⟩) := by
  obtain ⟨root, h1, h2, _⟩ := insertAll_total region os
  refine ⟨root, h1, fun n hn => ?_⟩
  have hw := wellFormed_subnodes root h2 n hn
  cases n with
  | null => simp [WellFormed] at hw
  | node l b kept c0 c1 c2 c3 =>
    obtain ⟨_, ⟨h0, h1, h2, h3⟩ | ⟨_, _, k0, k1, k2, k3, w0, w1, w2, w3⟩⟩ := hw
    · subst h0 h1 h2 h3
      exact Or.inl rfl
    · right
      refine ⟨?_, k0.1, k1.1, k2.1, k3.1, ?_, ?_, ?_, ?_⟩
      · simp [Quadtree.hasFourChildren, wellFormed_ne_null w0, wellFormed_ne_null w1,
          wellFormed_ne_null w2, wellFormed_ne_null w3]
      · exact k0.2.1
      · exact k1.2.1
      · exact k2.2.1
      · exact k3.2.1

/-! ## `insert` on arbitrary nodes -/

theorem isNull_setNode (S : Quadtree) (k : Int) (c : Quadtree) :
    (S.setNode k c).isNull = S.isNull := by
  cases S with
  | null => rfl
  | node l b os c0 c1 c2 c3 => simp only [Quadtree.setNode]; split_ifs <;> rfl

theorem nodes_setNode_same (S : Quadtree) (k : Int) (c : Quadtree) (hS : S.isNull = false)
    (hk : k = 0 ∨ k = 1 ∨ k = 2 ∨ k = 3) : (S.setNode k c).nodes k = c := by
  cases S with
  | null => simp [Quadtree.isNull] at hS
  | node l b os c0 c1 c2 c3 => rcases hk with rfl | rfl | rfl | rfl <;> rfl

theorem nodes_setNode_other (S : Quadtree) (j k : Int) (c : Quadtree) (hjk : j ≠ k) :
    (S.setNode k c).nodes j = S.nodes j := by
  cases S with
  | null => rfl
  | node l b os c0 c1 c2 c3 =>
    simp only [Quadtree.setNode]
    split_ifs <;> simp only [Quadtree.nodes] <;> split_ifs <;> first | rfl | omega

/-- A successful `insert` returns a node, never `NULL`. -/
theorem insertFuel_ne_null (fuel : Nat) (t : Quadtree) (o : Object) (t' : Quadtree)
    (h : insertFuel fuel t o = some t') : t.isNull = false := by
  cases fuel with
  | zero => simp [insertFuel] at h
  | succ f =>
    cases t with
    | null => simp [insertFuel] at h
    | node => rfl

/-- The redistribution loop only gains results when the recursive `insert`
it is given gains results. -/
theorem redistribute_mono (ins ins' : Quadtree → Object → Option Quadtree)
    (hmono : ∀ c o c', ins c o = some c' → ins' c o = some c') (rest : List Object) :
    ∀ S S' : Quadtree, redistribute ins rest S = some S' →
      redistribute ins' rest S = some S' := by
  induction rest with
  | nil => intro S S' h; simpa [redistribute] using h
  | cons o rest ih =>
    intro S S' h
    simp only [redistribute] at h ⊢
    split_ifs at h ⊢ with hi
    · cases hc : ins (S.nodes (getIndex S.bounds o.bounds)) o with
      | none => simp [hc] at h
      | some c =>
        rw [hc] at h
        rw [hmono _ _ _ hc]
        exact ih _ _ h
    · exact ih _ _ h

/-- A result obtained within `fuel` nested calls is also obtained with one
more allowed. -/
theorem insertFuel_succ : ∀ (fuel : Nat) (t : Quadtree) (o : Object) (t' : Quadtree),
    insertFuel fuel t o = some t' → insertFuel (fuel + 1) t o = some t' := by
  intro fuel
  induction fuel with
  | zero => intro t o t' h; simp [insertFuel] at h
  | succ f ih =>
    intro t o t' h
    cases t with
    | null => simp [insertFuel] at h
    | node l b os c0 c1 c2 c3 =>
      simp only [insertFuel] at h ⊢
      by_cases h1 : (!c0.isNull && decide (getIndex b o.bounds ≠ -1)) = true
      · simp only [h1, if_true] at h ⊢
        cases hc : insertFuel f ((Quadtree.node l b os c0 c1 c2 c3).nodes
            (getIndex b o.bounds)) o with
        | none => simp [hc] at h
        | some c =>
          simp only [hc] at h
          simp only [ih _ _ _ hc]
          exact h
      · simp only [h1, if_false] at h ⊢
        by_cases h2 : (os ++ [o]).length > MAX_OBJECTS ∧ l < MAX_LEVELS
        · simp only [h2, and_self, if_true] at h ⊢
          exact redistribute_mono _ _ ih _ _ _ h
        · simp only [h2, if_false] at h ⊢
          exact h

/-- A result obtained within `fuel` nested calls is the result for every
larger bound. -/
theorem insertFuel_mono (fuel fuel' : Nat) (hle : fuel ≤ fuel') (t : Quadtree) (o : Object)
    (t' : Quadtree) (h : insertFuel fuel t o = some t') : insertFuel fuel' t o = some t' := by
  induction hle with
  | refl => exact h
  | step _ ih => exact insertFuel_succ _ _ _ _ ih

theorem wellShaped_child (S : Quadtree) (k : Int) (hS : WellShaped S)
    (hleaf : S.isLeaf = false) (hk : k = 0 ∨ k = 1 ∨ k = 2 ∨ k = 3) :
    WellShaped (S.nodes k) := by
  cases S with
  | null => exact absurd hS (by simp [WellShaped])
  | node l b os c0 c1 c2 c3 =>
    rcases hS with ⟨h0, h1, h2, h3⟩ | ⟨w0, w1, w2, w3⟩
    · subst h0 h1 h2 h3
      simp [Quadtree.isLeaf, Quadtree.isNull] at hleaf
    · rcases hk with rfl | rfl | rfl | rfl <;> assumption

theorem wellShaped_setNode (S : Quadtree) (k : Int) (c : Quadtree) (hS : WellShaped S)
    (hleaf : S.isLeaf = false) (hk : k = 0 ∨ k = 1 ∨ k = 2 ∨ k = 3) (hc : WellShaped c) :
    WellShaped (S.setNode k c) := by
  cases S with
  | null => exact absurd hS (by simp [WellShaped])
  | node l b os c0 c1 c2 c3 =>
    rcases hS with ⟨h0, h1, h2, h3⟩ | ⟨w0, w1, w2, w3⟩
    · subst h0 h1 h2 h3
      simp [Quadtree.isLeaf, Quadtree.isNull] at hleaf
    · rcases hk with rfl | rfl | rfl | rfl
      · exact Or.inr ⟨hc, w1, w2, w3⟩
      · exact Or.inr ⟨w0, hc, w2, w3⟩
      · exact Or.inr ⟨w0, w1, hc, w3⟩
      · exact Or.inr ⟨w0, w1, w2, hc⟩

theorem wellShaped_hasFourChildren (S : Quadtree) (hS : WellShaped S)
    (hleaf : S.isLeaf = false) : S.hasFourChildren = true := by
  cases S with
  | null => exact absurd hS (by simp [WellShaped])
  | node l b os c0 c1 c2 c3 =>
    rcases hS with ⟨h0, h1, h2, h3⟩ | ⟨w0, w1, w2, w3⟩
    · subst h0 h1 h2 h3
      simp [Quadtree.isLeaf, Quadtree.isNull] at hleaf
    · simp [Quadtree.hasFourChildren, wellShaped_ne_null w0, wellShaped_ne_null w1,
        wellShaped_ne_null w2, wellShaped_ne_null w3]

theorem wellShaped_pushObject (S : Quadtree) (o : Object) (hS : WellShaped S) :
    WellShaped (S.pushObject o) := by
  cases S with
  | null => exact absurd hS (by simp [WellShaped])
  | node l b os c0 c1 c2 c3 => exact hS

/-- The redistribution loop on a subdivided node of an all-or-nothing tree,
whenever it returns: the node keeps level, region and shape, its own list
gains exactly the entries of `rest` without a quadrant, in order, and child
`k` gains exactly the entries of `rest` with quadrant `k`. -/
theorem redistribute_general (ins : Quadtree → Object → Option Quadtree)
    (hins : ∀ c o c', WellShaped c → ins c o = some c' →
      WellShaped c' ∧ (c'.allObjects : Multiset Object) = o ::ₘ (c.allObjects : Multiset Object))
    (rest : List Object) :
    ∀ S S' : Quadtree, WellShaped S → S.isLeaf = false → redistribute ins rest S = some S' →
      WellShaped S' ∧ S'.isLeaf = false ∧ S'.level = S.level ∧ S'.bounds = S.bounds ∧
      S'.objects = S.objects ++ rest.filter (fun x => decide (getIndex S.bounds x.bounds = -1)) ∧
      (∀ k : Int, (k = 0 ∨ k = 1 ∨ k = 2 ∨ k = 3) →
        ((S'.nodes k).allObjects : Multiset Object) =
          ((S.nodes k).allObjects : Multiset Object) +
            ((rest.filter (fun x => decide (getIndex S.bounds x.bounds = k)) : List Object) :
              Multiset Object)) ∧
      (S'.allObjects : Multiset Object) =
        (S.allObjects : Multiset Object) + (rest : Multiset Object) := by
  induction rest with
  | nil =>
    intro S S' hS hleaf h
    simp only [redistribute, Option.some.injEq] at h
    subst h
    exact ⟨hS, hleaf, rfl, rfl, by simp, fun k _ => by simp, by simp⟩
  | cons o rest ih =>
    intro S S' hS hleaf h
    have hnull : S.isNull = false := wellShaped_ne_null hS
    simp only [redistribute] at h
    by_cases hi : getIndex S.bounds o.bounds = -1
    · simp only [hi, ne_eq, not_true_eq_false, if_false] at h
      have hS1 : WellShaped (S.pushObject o) := wellShaped_pushObject S o hS
      cases S with
      | null => simp [Quadtree.isNull] at hnull
      | node l b os c0 c1 c2 c3 =>
        simp only [Quadtree.pushObject] at h hS1
        simp only [Quadtree.bounds] at hi
        obtain ⟨a1, a2, a3, a4, a5, a6, a7⟩ := ih _ S' hS1 hleaf h
        refine ⟨a1, a2, a3, a4, ?_, ?_, ?_⟩
        · rw [a5]
          simp [Quadtree.objects, Quadtree.bounds, List.filter_cons, hi]
        · intro k hk
          have hk' : ¬ getIndex b o.bounds = k := by
            rw [hi]; rcases hk with rfl | rfl | rfl | rfl <;> decide
          rw [a6 k hk]
          simp [Quadtree.nodes, Quadtree.bounds, List.filter_cons, hk']
        · rw [a7]
          simp only [Quadtree.allObjects, ← Multiset.coe_add, ← Multiset.cons_coe,
            Multiset.add_cons, Multiset.cons_add, ← Multiset.singleton_add, Multiset.coe_nil,
            add_zero]
          abel
    · simp only [hi, ne_eq, not_false_eq_true, if_true] at h
      have hj : getIndex S.bounds o.bounds = 0 ∨ getIndex S.bounds o.bounds = 1 ∨
          getIndex S.bounds o.bounds = 2 ∨ getIndex S.bounds o.bounds = 3 := by
        rcases getIndex_range S.bounds o.bounds with h' | h'
        · exact absurd h' hi
        · exact h'
      cases hc : ins (S.nodes (getIndex S.bounds o.bounds)) o with
      | none => simp [hc] at h
      | some c =>
        simp only [hc] at h
        obtain ⟨wc, mc⟩ := hins _ _ _ (wellShaped_child S _ hS hleaf hj) hc
        have hS1 := wellShaped_setNode S _ c hS hleaf hj wc
        obtain ⟨a1, a2, a3, a4, a5, a6, a7⟩ :=
          ih _ S' hS1 (isLeaf_setNode _ _ _ hleaf (wellShaped_ne_null wc)) h
        rw [bounds_setNode] at a4 a5 a6
        rw [level_setNode] at a3
        rw [objects_setNode] at a5
        refine ⟨a1, a2, a3, a4, ?_, ?_, ?_⟩
        · rw [a5]
          simp [List.filter_cons, hi]
        · intro k hk
          rw [a6 k hk]
          by_cases hkj : k = getIndex S.bounds o.bounds
          · subst hkj
            rw [nodes_setNode_same S _ c hnull hj, mc]
            simp only [List.filter_cons, decide_True, if_true, ← Multiset.cons_coe,
              Multiset.cons_add, Multiset.add_cons]
          · rw [nodes_setNode_other S k _ c hkj]
            have : ¬ getIndex S.bounds o.bounds = k := fun h' => hkj h'.symm
            simp [List.filter_cons, this]
        · rw [a7, allObjects_setNode S _ c o hnull hj mc]
          simp only [← Multiset.cons_coe, Multiset.cons_add, Multiset.add_cons]

theorem isLeaf_of_isNull_false (l : Int) (b : Rectangle) (os : List Object)
    (c0 c1 c2 c3 : Quadtree) (h : c0.isNull = false) :
    (Quadtree.node l b os c0 c1 c2 c3).isLeaf = false := by
  simp [Quadtree.isLeaf, h]

theorem wellShaped_subdivided (l : Int) (b : Rectangle) (os : List Object) (x0 x1 x2 x3 : Rectangle) :
    WellShaped (.node l b os (createQuadtree (l + 1) x0) (createQuadtree (l + 1) x1)
      (createQuadtree (l + 1) x2) (createQuadtree (l + 1) x3)) := by
  simp [WellShaped, createQuadtree]

/-- On a tree in which every node has no child or all four, a successful
`insert` keeps that shape, the level and the region of the root, and stores
exactly one more entry, the inserted one. -/
theorem insertFuel_wellShaped : ∀ (fuel : Nat) (t : Quadtree) (o : Object) (t' : Quadtree),
    WellShaped t → insertFuel fuel t o = some t' →
      WellShaped t' ∧ t'.level = t.level ∧ t'.bounds = t.bounds ∧
      (t'.allObjects : Multiset Object) = o ::ₘ (t.allObjects : Multiset Object) := by
  intro fuel
  induction fuel with
  | zero => intro t o t' _ h; simp [insertFuel] at h
  | succ f ih =>
    intro t o t' ht h
    cases t with
    | null => simp [insertFuel] at h
    | node l b os c0 c1 c2 c3 =>
      simp only [insertFuel] at h
      by_cases h1 : (!c0.isNull && decide (getIndex b o.bounds ≠ -1)) = true
      · simp only [h1, if_true] at h
        simp only [Bool.and_eq_true, Bool.not_eq_true', decide_eq_true_eq] at h1
        have hleaf := isLeaf_of_isNull_false l b os c0 c1 c2 c3 h1.1
        have hj : getIndex b o.bounds = 0 ∨ getIndex b o.bounds = 1 ∨
            getIndex b o.bounds = 2 ∨ getIndex b o.bounds = 3 := by
          rcases getIndex_range b o.bounds with h' | h'
          · exact absurd h' h1.2
          · exact h'
        cases hc : insertFuel f ((Quadtree.node l b os c0 c1 c2 c3).nodes
            (getIndex b o.bounds)) o with
        | none => simp [hc] at h
        | some c =>
          simp only [hc, Option.some.injEq] at h
          subst h
          obtain ⟨wc, _, _, mc⟩ := ih _ _ _ (wellShaped_child _ _ ht hleaf hj) hc
          exact ⟨wellShaped_setNode _ _ c ht hleaf hj wc, level_setNode _ _ _,
            bounds_setNode _ _ _, allObjects_setNode _ _ c o rfl hj mc⟩
      · simp only [h1, Bool.false_eq_true, if_false] at h
        by_cases h2 : (os ++ [o]).length > MAX_OBJECTS ∧ l < MAX_LEVELS
        · simp only [h2, and_self, if_true] at h
          have hins : ∀ c o c', WellShaped c → insertFuel f c o = some c' →
              WellShaped c' ∧ (c'.allObjects : Multiset Object) = o ::ₘ (c.allObjects : Multiset Object) :=
            fun c o c' hc hh => ⟨(ih c o c' hc hh).1, (ih c o c' hc hh).2.2.2⟩
          cases h0 : c0.isNull with
          | true =>
            simp only [h0, if_true, subdivide, Quadtree.objects, Quadtree.setObjects] at h
            obtain ⟨a1, _, a3, a4, _, _, a7⟩ :=
              redistribute_general _ hins _ _ _ (wellShaped_subdivided l b [] _ _ _ _)
                (by simp [Quadtree.isLeaf, Quadtree.isNull, createQuadtree]) h
            refine ⟨a1, a3, a4, ?_⟩
            rw [a7, coe_snoc]
            rcases ht with ⟨e0, e1, e2, e3⟩ | ⟨w0, _⟩
            · subst e0 e1 e2 e3
              simp [Quadtree.allObjects, createQuadtree]
            · rw [wellShaped_ne_null w0] at h0
              exact absurd h0 (by simp)
          | false =>
            simp only [h0, Bool.false_eq_true, if_false, Quadtree.objects,
              Quadtree.setObjects] at h
            have ht0 : WellShaped (.node l b [] c0 c1 c2 c3) := ht
            obtain ⟨a1, _, a3, a4, _, _, a7⟩ :=
              redistribute_general _ hins _ _ _ ht0 (isLeaf_of_isNull_false l b [] c0 c1 c2 c3 h0) h
            refine ⟨a1, a3, a4, ?_⟩
            rw [a7, coe_snoc]
            simp only [Quadtree.allObjects, ← Multiset.coe_add, ← Multiset.cons_coe,
              Multiset.add_cons, Multiset.cons_add, Multiset.coe_nil, List.nil_append,
              zero_add]
            abel_nf
        · simp only [h2, if_false, Option.some.injEq] at h
          subst h
          refine ⟨ht, rfl, rfl, ?_⟩
          simp only [Quadtree.allObjects, ← Multiset.coe_add, Multiset.coe_singleton,
            ← Multiset.singleton_add]
          abel

/-! ## Termination and nesting depth -/

/-- On a well-formed node, `retrieve` needs at most `MAX_LEVELS - level + 1`
nested calls: with that many allowed, the bounded version is `retrieve`. -/
theorem retrieveFuel_eq_retrieve (probe : Object) (acc : List Object) :
    ∀ (t : Quadtree) (fuel : Nat), WellFormed t → MAX_LEVELS - t.level < fuel →
      retrieveFuel fuel t probe acc = retrieve t probe acc := by
  intro t
  induction t with
  | null => intro fuel h; exact absurd h (by simp [WellFormed])
  | node l b os c0 c1 c2 c3 ih0 ih1 ih2 ih3 =>
    intro fuel h hf
    simp only [Quadtree.level] at hf
    cases fuel with
    | zero => have := h.1; omega
    | succ f =>
      obtain ⟨_, ⟨h0, h1, h2, h3⟩ | ⟨_, _, k0, k1, k2, k3, w0, w1, w2, w3⟩⟩ := h
      · subst h0 h1 h2 h3
        simp [retrieveFuel, retrieve, Quadtree.isNull]
      · have e0 := ih0 f w0 (by rw [k0.1]; omega)
        have e1 := ih1 f w1 (by rw [k1.1]; omega)
        have e2 := ih2 f w2 (by rw [k2.1]; omega)
        have e3 := ih3 f w3 (by rw [k3.1]; omega)
        rcases getIndex_range b probe.bounds with hi | hi | hi | hi | hi <;>
          simp [retrieveFuel, retrieve, hi, Quadtree.nodes, e0, e1, e2, e3]

theorem level_le_subnodes : ∀ t : Quadtree, WellFormed t →
    ∀ n ∈ t.subnodes, t.level ≤ n.level := by
  intro t
  induction t with
  | null => intro h; exact absurd h (by simp [WellFormed])
  | node l b os c0 c1 c2 c3 ih0 ih1 ih2 ih3 =>
    intro h n hn
    simp only [Quadtree.subnodes, List.mem_cons, List.mem_append] at hn
    rcases hn with rfl | hn
    · exact le_refl _
    · obtain ⟨_, ⟨h0, h1, h2, h3⟩ | ⟨_, _, k0, k1, k2, k3, w0, w1, w2, w3⟩⟩ := h
      · subst h0 h1 h2 h3
        simp [Quadtree.subnodes] at hn
      · show l ≤ n.level
        rcases hn with hn | hn | hn | hn
        · have := ih0 w0 n hn; rw [k0.1] at this; omega
        · have := ih1 w1 n hn; rw [k1.1] at this; omega
        · have := ih2 w2 n hn; rw [k2.1] at this; omega
        · have := ih3 w3 n hn; rw [k3.1] at this; omega

/-- With unbounded entry lists (the store of `insert` taken as an append),
`insert` and `retrieve` terminate on every tree reachable from a
fresh level-0 root by `insert` calls, within `MAX_LEVELS + 1` nested calls:
`insert` limited to that nesting depth returns a tree, and the same tree for
every larger limit; `retrieve` limited to that depth returns the list that
`retrieve` returns, as for every larger limit; every node has a level from 0
to `MAX_LEVELS`, the children of a node are one level deeper, and a node at
level `MAX_LEVELS` is a leaf. -/
theorem insert_retrieve_terminate (region : Rectangle) (os : List Object) (o probe : Object) :
    ∃ root, insertAll (createQuadtree 0 region) os = some root ∧
      (∃ root', insertFuel (MAX_LEVELS + 1).toNat root o = some root' ∧
        ∀ fuel : Nat, (MAX_LEVELS + 1).toNat ≤ fuel → insertFuel fuel root o = some root') ∧
      (∃ r, retrieve root probe [] = some r ∧
        ∀ fuel : Nat, (MAX_LEVELS + 1).toNat ≤ fuel →
          retrieveFuel fuel root probe [] = some r) ∧
      ∀ n ∈ root.subnodes, 0 ≤ n.level ∧ n.level ≤ MAX_LEVELS ∧
        (n.level = MAX_LEVELS → n.isLeaf = true) ∧
        (n.isLeaf = false → ∀ i : Int, 0 ≤ i → i ≤ 3 → (n.nodes i).level = n.level + 1) := by
  obtain ⟨root, h1, h2, h3, _⟩ := insertAll_total region os
  have h6 : (MAX_LEVELS + 1).toNat = 6 := by decide
  refine ⟨root, h1, ?_, ?_, ?_⟩
  · obtain ⟨root', e1, _⟩ :=
      insertFuel_spec (MAX_LEVELS + 1).toNat root o h2 (by rw [h3, h6]; decide)
    exact ⟨root', e1, fun fuel hf => insertFuel_mono _ fuel hf root o root' e1⟩
  · refine ⟨[] ++ retrieveRef root probe.bounds,
      retrieve_eq_retrieveRef probe root [] (wellFormed_wellShaped root h2), fun fuel hf => ?_⟩
    rw [retrieveFuel_eq_retrieve probe [] root fuel h2
      (by rw [h3]; simp only [MAX_LEVELS] at hf ⊢; omega)]
    exact retrieve_eq_retrieveRef probe root [] (wellFormed_wellShaped root h2)
  · intro n hn
    have hw := wellFormed_subnodes root h2 n hn
    have hl := level_le_subnodes root h2 n hn
    rw [h3] at hl
    cases n with
    | null => simp [WellFormed] at hw
    | node l b kept c0 c1 c2 c3 =>
      obtain ⟨hl5, ⟨e0, e1, e2, e3⟩ | ⟨hlt, _, k0, k1, k2, k3, _⟩⟩ := hw
      · subst e0 e1 e2 e3
        exact ⟨hl, hl5, fun _ => rfl, fun h => by simp [Quadtree.isLeaf, Quadtree.isNull] at h⟩
      · refine ⟨hl, hl5, fun h => absurd h (ne_of_lt hlt), fun _ i hi0 hi3 => ?_⟩
        interval_cases i
        · exact k0.1
        · exact k1.1
        · exact k2.1
        · exact k3.1

/-- The tree used to show a missed overlap: five entries, one per quadrant
plus a second one in the north-west, so that the root `{0, 0, 100, 100}`
subdivides and keeps nothing. -/
theorem insertAll_spread :
    insertAll (createQuadtree 0 ⟨0, 0, 100, 100⟩)
      [⟨1, ⟨40, 10, 8, 8⟩⟩, ⟨2, ⟨15, 15, 5, 5⟩⟩, ⟨3, ⟨80, 80, 5, 5⟩⟩, ⟨4, ⟨60, 10, 5, 5⟩⟩,
        ⟨5, ⟨10, 60, 5, 5⟩⟩]
      = some (.node 0 ⟨0, 0, 100, 100⟩ []
          (.node 1 ⟨0, 0, 50, 50⟩ [⟨1, ⟨40, 10, 8, 8⟩⟩, ⟨2, ⟨15, 15, 5, 5⟩⟩]
            .null .null .null .null)
          (.node 1 ⟨50, 0, 50, 50⟩ [⟨4, ⟨60, 10, 5, 5⟩⟩] .null .null .null .null)
          (.node 1 ⟨0, 50, 50, 50⟩ [⟨5, ⟨10, 60, 5, 5⟩⟩] .null .null .null .null)
          (.node 1 ⟨50, 50, 50, 50⟩ [⟨3, ⟨80, 80, 5, 5⟩⟩] .null .null .null .null)) := by
  have g1 : getIndex ⟨0, 0, 100, 100⟩ ⟨40, 10, 8, 8⟩ = 0 := by norm_num [getIndex]
  have g2 : getIndex ⟨0, 0, 100, 100⟩ ⟨15, 15, 5, 5⟩ = 0 := by norm_num [getIndex]
  have g3 : getIndex ⟨0, 0, 100, 100⟩ ⟨80, 80, 5, 5⟩ = 3 := by norm_num [getIndex]
  have g4 : getIndex ⟨0, 0, 100, 100⟩ ⟨60, 10, 5, 5⟩ = 1 := by norm_num [getIndex]
  have g5 : getIndex ⟨0, 0, 100, 100⟩ ⟨10, 60, 5, 5⟩ = 2 := by norm_num [getIndex]
  have h6 : (MAX_LEVELS + 1).toNat = 5 + 1 := by decide
  simp only [insertAll, Quadtree.insert, h6]
  norm_num [insertFuel, redistribute, subdivide, createQuadtree, g1, g2, g3, g4, g5,
    MAX_LEVELS, MAX_OBJECTS, Quadtree.isNull, Quadtree.nodes, Quadtree.setNode,
    Quadtree.pushObject, Quadtree.objects, Quadtree.setObjects, Quadtree.bounds]

/-- With unbounded entry lists (the store of `insert` taken as an append),
`retrieve` misses an overlap after five insertions into a fresh root. In the
root `{0, 0, 100, 100}`, after inserting entries 1 `{40, 10, 8, 8}`,
2 `{15, 15, 5, 5}`, 3 `{80, 80, 5, 5}`, 4 `{60, 10, 5, 5}` and
5 `{10, 60, 5, 5}`, entry 1 is stored in the north-west child. The probe `{45, 10, 10, 10}` overlaps entry 1
but straddles the vertical midline, so its descent path stops at the root and
`retrieve` returns a list without entry 1. -/
theorem retrieve_misses_overlap :
    ∃ (region : Rectangle) (os : List Object) (probe e : Object) (root : Quadtree)
      (r : List Object),
      insertAll (createQuadtree 0 region) os = some root ∧ e ∈ os ∧
      isOverlapping e.bounds probe.bounds = true ∧
      retrieve root probe [] = some r ∧ e ∉ r ∧
      e ∈ (root.nodes 0).allObjects ∧ descentPath root probe.bounds = [root] := by
  refine ⟨⟨0, 0, 100, 100⟩,
    [⟨1, ⟨40, 10, 8, 8⟩⟩, ⟨2, ⟨15, 15, 5, 5⟩⟩, ⟨3, ⟨80, 80, 5, 5⟩⟩, ⟨4, ⟨60, 10, 5, 5⟩⟩,
      ⟨5, ⟨10, 60, 5, 5⟩⟩],
    ⟨9, ⟨45, 10, 10, 10⟩⟩, ⟨1, ⟨40, 10, 8, 8⟩⟩, _, [], insertAll_spread, by simp, ?_, ?_,
    by simp, ?_, ?_⟩
  · norm_num [isOverlapping]
  · have g : getIndex ⟨0, 0, 100, 100⟩ ⟨45, 10, 10, 10⟩ = -1 := by norm_num [getIndex]
    simp [retrieve, g]
  · simp [Quadtree.nodes, Quadtree.allObjects]
  · have g : getIndex ⟨0, 0, 100, 100⟩ ⟨45, 10, 10, 10⟩ = -1 := by norm_num [getIndex]
    simp [descentPath, g, Quadtree.isLeaf, Quadtree.isNull]

/-- With unbounded entry lists (the store of `insert` taken as an append):
overflow redistribution. Let `insert`, limited to any nesting depth,
append `e` to a node of an all-or-nothing tree (the node is a leaf or `e` has
no quadrant), with the level below `MAX_LEVELS` and the count thereby above
`MAX_OBJECTS`. Whenever the call returns, the node has four children, its
level and region are unchanged, its own entry list is the sublist of the old
list followed by `e` made of the entries with index -1, in order, and every
other entry of that list is stored in the subtree of the child its index
names. On a well-formed node the call returns once more than
`MAX_LEVELS - level` nested calls are allowed. -/
theorem overflow_redistribution (l : Int) (b : Rectangle) (os : List Object)
    (c0 c1 c2 c3 : Quadtree) (e : Object) (fuel : Nat)
    (hshape : WellShaped (.node l b os c0 c1 c2 c3))
    (happ : c0.isNull = true ∨ getIndex b e.bounds = -1)
    (hcount : (os ++ [e]).length > MAX_OBJECTS) (hlevel : l < MAX_LEVELS) :
    (∀ N' : Quadtree, insertFuel (fuel + 1) (.node l b os c0 c1 c2 c3) e = some N' →
      N'.hasFourChildren = true ∧ N'.level = l ∧ N'.bounds = b ∧
      N'.objects = (os ++ [e]).filter (fun x => decide (getIndex b x.bounds = -1)) ∧
      ∀ x ∈ os ++ [e], getIndex b x.bounds ≠ -1 →
        x ∈ (N'.nodes (getIndex b x.bounds)).allObjects) ∧
    (WellFormed (.node l b os c0 c1 c2 c3) → MAX_LEVELS - l < fuel + 1 →
      ∃ N', insertFuel (fuel + 1) (.node l b os c0 c1 c2 c3) e = some N') := by
  have hins : ∀ c o c', WellShaped c → insertFuel fuel c o = some c' →
      WellShaped c' ∧ (c'.allObjects : Multiset Object) = o ::ₘ (c.allObjects : Multiset Object) :=
    fun c o c' hc hh => ⟨(insertFuel_wellShaped fuel c o c' hc hh).1,
      (insertFuel_wellShaped fuel c o c' hc hh).2.2.2⟩
  have h1 : (!c0.isNull && decide (getIndex b e.bounds ≠ -1)) = false := by
    rcases happ with h | h
    · simp [h]
    · simp [h]
  have hmem : ∀ (S S' : Quadtree),
      (∀ k : Int, (k = 0 ∨ k = 1 ∨ k = 2 ∨ k = 3) →
        ((S'.nodes k).allObjects : Multiset Object) =
          ((S.nodes k).allObjects : Multiset Object) +
            (((os ++ [e]).filter (fun x => decide (getIndex b x.bounds = k)) :
              List Object) : Multiset Object)) →
      ∀ x ∈ os ++ [e], getIndex b x.bounds ≠ -1 →
        x ∈ (S'.nodes (getIndex b x.bounds)).allObjects := by
    intro S S' hk x hx hne
    have hj : getIndex b x.bounds = 0 ∨ getIndex b x.bounds = 1 ∨
        getIndex b x.bounds = 2 ∨ getIndex b x.bounds = 3 := by
      rcases getIndex_range b x.bounds with h' | h'
      · exact absurd h' hne
      · exact h'
    have : x ∈ ((S'.nodes (getIndex b x.bounds)).allObjects : Multiset Object) := by
      rw [hk _ hj]
      apply Multiset.mem_add.mpr
      right
      exact List.mem_filter.mpr ⟨hx, by simp⟩
    exact this
  refine ⟨fun N' hN => ?_, fun hw hf => ?_⟩
  · simp only [insertFuel, h1, Bool.false_eq_true, if_false, hcount, hlevel, and_self,
      if_true] at hN
    cases h0 : c0.isNull with
    | true =>
      simp only [h0, if_true, subdivide, Quadtree.objects, Quadtree.setObjects] at hN
      obtain ⟨a1, a2, a3, a4, a5, a6, _⟩ :=
        redistribute_general _ hins _ _ _ (wellShaped_subdivided l b [] _ _ _ _)
          (by simp [Quadtree.isLeaf, Quadtree.isNull, createQuadtree]) hN
      exact ⟨wellShaped_hasFourChildren N' a1 a2, a3, a4, by simpa using a5,
        hmem _ N' a6⟩
    | false =>
      simp only [h0, Bool.false_eq_true, if_false, Quadtree.objects,
        Quadtree.setObjects] at hN
      have ht0 : WellShaped (.node l b [] c0 c1 c2 c3) := hshape
      obtain ⟨a1, a2, a3, a4, a5, a6, _⟩ :=
        redistribute_general _ hins _ _ _ ht0 (isLeaf_of_isNull_false l b [] c0 c1 c2 c3 h0) hN
      exact ⟨wellShaped_hasFourChildren N' a1 a2, a3, a4, by simpa using a5,
        hmem _ N' a6⟩
  · obtain ⟨N', e1, _⟩ := insertFuel_spec (fuel + 1) (.node l b os c0 c1 c2 c3) e hw
      (by simp only [Quadtree.level]; exact_mod_cast hf)
    exact ⟨N', e1⟩

/-- With unbounded entry lists (the store of `insert` taken as an append),
entries held at an interior node are exactly the unclassifiable
ones. In every tree obtained from a fresh root by `insert` calls, every entry
stored directly at a node with children has index -1 against that node, so an
entry that classifies into a single quadrant is stored directly only at a
leaf. -/
theorem interior_entries_indeterminate (region : Rectangle) (os : List Object) :
    ∃ root, insertAll (createQuadtree 0 region) os = some root ∧
      (∀ n ∈ root.subnodes, n.isLeaf = false →
        ∀ x ∈ n.objects, getIndex n.bounds x.bounds = -1) ∧
      (∀ n ∈ root.subnodes, ∀ x ∈ n.objects,
        getIndex n.bounds x.bounds ≠ -1 → n.isLeaf = true) := by
  obtain ⟨root, h1, h2, _⟩ := insertAll_total region os
  have key : ∀ n ∈ root.subnodes, n.isLeaf = false →
      ∀ x ∈ n.objects, getIndex n.bounds x.bounds = -1 := by
    intro n hn hleaf
    have hw := wellFormed_subnodes root h2 n hn
    cases n with
    | null => simp [WellFormed] at hw
    | node l b kept c0 c1 c2 c3 =>
      obtain ⟨_, ⟨e0, e1, e2, e3⟩ | ⟨_, hkept, _⟩⟩ := hw
      · subst e0 e1 e2 e3
        simp [Quadtree.isLeaf, Quadtree.isNull] at hleaf
      · exact hkept
  refine ⟨root, h1, key, fun n hn x hx hne => ?_⟩
  by_contra hleaf
  exact hne (key n hn (by simpa using hleaf) x hx)

/-- C16, as stated, fails: the north-west and north-east children of the root
`{0, 0, 100, 100}` are `{0, 0, 50, 50}` and `{50, 0, 50, 50}`; they share the
edge `x = 50`, and `isOverlapping` counts touching rectangles as overlapping.
All values and sums involved are exact in `float`. -/
theorem subdivide_children_counterexample :
    (0 : ℚ) < (Rectangle.mk 0 0 100 100).width ∧
    (0 : ℚ) < (Rectangle.mk 0 0 100 100).height ∧
    ((subdivide (createQuadtree 0 ⟨0, 0, 100, 100⟩)).nodes 0).bounds = ⟨0, 0, 50, 50⟩ ∧
    ((subdivide (createQuadtree 0 ⟨0, 0, 100, 100⟩)).nodes 1).bounds = ⟨50, 0, 50, 50⟩ ∧
    isOverlapping ((subdivide (createQuadtree 0 ⟨0, 0, 100, 100⟩)).nodes 0).bounds
      ((subdivide (createQuadtree 0 ⟨0, 0, 100, 100⟩)).nodes 1).bounds = true := by
  norm_num [subdivide, createQuadtree, Quadtree.nodes, Quadtree.bounds, isOverlapping]

/-- C16, amended: for every node whose region has positive width and height
(coordinates taken as exact numbers), after `subdivide`, no point lies in the
interior of two distinct children, while `isOverlapping`, which counts
touching rectangles as overlapping, is true of the regions of any two
children: neighbours share an edge and diagonal children share the centre
point. -/
theorem subdivide_children_touch (level : Int) (bounds : Rectangle) (objects : List Object)
    (n0 n1 n2 n3 : Quadtree) (hw : 0 < bounds.width) (hh : 0 < bounds.height) :
    ∀ i j : Int, 0 ≤ i → i ≤ 3 → 0 ≤ j → j ≤ 3 →
      isOverlapping ((subdivide (.node level bounds objects n0 n1 n2 n3)).nodes i).bounds
        ((subdivide (.node level bounds objects n0 n1 n2 n3)).nodes j).bounds = true ∧
      (i ≠ j → ∀ px py : ℚ,
        ¬ (inInterior ((subdivide (.node level bounds objects n0 n1 n2 n3)).nodes i).bounds px py ∧
           inInterior ((subdivide (.node level bounds objects n0 n1 n2 n3)).nodes j).bounds px py)) := by
  intro i j hi0 hi3 hj0 hj3
  constructor
  · interval_cases i <;> interval_cases j <;>
      simp only [subdivide, createQuadtree, Quadtree.nodes, Quadtree.bounds, isOverlapping,
        Bool.not_eq_true', Bool.or_eq_false_iff, decide_eq_false_iff_not, not_lt, gt_iff_lt,
        if_true, if_false] <;>
      norm_num <;>
      (try constructor) <;> linarith
  · intro hij px py
    interval_cases i <;> interval_cases j <;>
      first
      | exact absurd rfl hij
      | (simp [subdivide, createQuadtree, Quadtree.nodes, Quadtree.bounds, inInterior]
         intros
         linarith)

/-- Witness for C16, amended, on the region `{0, 0, 100, 100}`: the north-west
and south-east children touch at the centre and overlap under
`isOverlapping`. -/
theorem subdivide_children_touch_witness :
    (0 : ℚ) < (Rectangle.mk 0 0 100 100).width ∧
    (0 : ℚ) < (Rectangle.mk 0 0 100 100).height ∧
    isOverlapping
      ((subdivide (.node 0 ⟨0, 0, 100, 100⟩ [] .null .null .null .null)).nodes 0).bounds
      ((subdivide (.node 0 ⟨0, 0, 100, 100⟩ [] .null .null .null .null)).nodes 3).bounds
      = true :=
  ⟨by norm_num, by norm_num,
    (subdivide_children_touch 0 ⟨0, 0, 100, 100⟩ [] .null .null .null .null
      (by norm_num) (by norm_num) 0 3 (by norm_num) (by norm_num) (by norm_num)
      (by norm_num)).1⟩

/-- C17: `insert` conserves entries. For every tree `t` reachable from a fresh
root by `insert` calls and every entry `e`, `insert(t, e)` returns a tree
whose stored entries, as a multiset, are those of `t` plus one occurrence of
`e`; redistribution on overflow neither drops nor duplicates an entry. The
entries of `t` are the inserted ones. -/
theorem insert_conserves_entries (region : Rectangle) (os : List Object) (e : Object) :
    ∃ t t', insertAll (createQuadtree 0 region) os = some t ∧ t.insert e = some t' ∧
      (t'.allObjects : Multiset Object) = e ::ₘ (t.allObjects : Multiset Object) ∧
      (t.allObjects : Multiset Object) = (os : Multiset Object) := by
  obtain ⟨t, h1, h2, h3, _, h5⟩ := insertAll_total region os
  obtain ⟨t', e1, _, _, _, e5⟩ :=
    insertFuel_spec (MAX_LEVELS + 1).toNat t e h2 (by rw [h3]; decide)
  exact ⟨t, t', h1, e1, e5, h5⟩

/-- The entries on a descent path are among the entries of the tree, counted
with multiplicity. -/
theorem retrieveRef_le_allObjects (probe : Rectangle) :
    ∀ t : Quadtree, ((retrieveRef t probe : List Object) : Multiset Object) ≤
      (t.allObjects : Multiset Object) := by
  intro t
  induction t with
  | null => simp [retrieveRef, descentPath, Quadtree.allObjects]
  | node l b os c0 c1 c2 c3 ih0 ih1 ih2 ih3 =>
    rw [retrieveRef_unfold]
    simp only [Quadtree.allObjects, Quadtree.objects, Quadtree.bounds, ← Multiset.coe_add]
    rw [add_comm]
    apply add_le_add_left
    split_ifs with hc
    · rcases getIndex_range b probe with hi | hi | hi | hi | hi
      · exact absurd hi hc.1
      · rw [hi, nodes_zero]
        exact le_trans ih0 (Multiset.le_add_right _ _)
      · rw [hi, nodes_one]
        exact le_trans ih1 (le_trans (Multiset.le_add_right _ _) (Multiset.le_add_left _ _))
      · rw [hi, nodes_two]
        exact le_trans ih2 (le_trans (Multiset.le_add_right _ _)
          (le_trans (Multiset.le_add_left _ _) (Multiset.le_add_left _ _)))
      · rw [hi, nodes_three]
        exact le_trans ih3 (le_trans (Multiset.le_add_left _ _)
          (le_trans (Multiset.le_add_left _ _) (Multiset.le_add_left _ _)))
    · exact Multiset.zero_le _

/-- With unbounded entry lists (the store of `insert` taken as an append),
`retrieve` never returns a duplicate when entries are inserted once
each. For every sequence of `insert` calls of pairwise distinct entries into
a fresh root and every probe, the sequence returned by `retrieve` contains no
entry twice and only inserted entries; counted with multiplicity, it is part
of the inserted sequence. -/
theorem retrieve_no_duplicates (region : Rectangle) (os : List Object) (probe : Object)
    (hnd : os.Nodup) :
    ∃ root r, insertAll (createQuadtree 0 region) os = some root ∧
      retrieve root probe [] = some r ∧ r.Nodup ∧ (∀ x ∈ r, x ∈ os) ∧
      (r : Multiset Object) ≤ (os : Multiset Object) := by
  obtain ⟨root, h1, h2, _, _, h5⟩ := insertAll_total region os
  have hle : ((retrieveRef root probe.bounds : List Object) : Multiset Object) ≤
      (os : Multiset Object) := h5 ▸ retrieveRef_le_allObjects probe.bounds root
  refine ⟨root, retrieveRef root probe.bounds, h1, ?_, ?_, ?_, hle⟩
  · simpa using retrieve_eq_retrieveRef probe root [] (wellFormed_wellShaped root h2)
  · have : (os : Multiset Object).Nodup := Multiset.coe_nodup.mpr hnd
    exact Multiset.coe_nodup.mp (Multiset.nodup_of_le hle this)
  · intro x hx
    have : x ∈ (os : Multiset Object) := Multiset.mem_of_le hle hx
    exact this

/-- What each determinate result of `getIndex` says about the bounds. -/
theorem getIndex_determinate (region b : Rectangle) :
    (getIndex region b = 0 → inLeft region b ∧ inTop region b) ∧
    (getIndex region b = 1 → inRight region b ∧ inTop region b) ∧
    (getIndex region b = 2 → inLeft region b ∧ inBottom region b) ∧
    (getIndex region b = 3 → inRight region b ∧ inBottom region b) := by
  unfold getIndex inLeft inTop inRight inBottom midX midY
  simp only [Bool.and_eq_true, decide_eq_true_eq, gt_iff_lt]
  split_ifs <;> simp_all

/-- Bounds inside a region that classify to quadrant `k` are inside the
region of child `k`. -/
theorem containedIn_quadrant (r x : Rectangle) (k : Int) (hk : getIndex r x = k)
    (hne : k ≠ -1) (hc : containedIn x r) : containedIn x (quadrantRegion r k) := by
  obtain ⟨c1, c2, c3, c4⟩ := hc
  obtain ⟨d0, d1, d2, d3⟩ := getIndex_determinate r x
  simp only [inLeft, inTop, inRight, inBottom, midX, midY, gt_iff_lt] at d0 d1 d2 d3
  rcases getIndex_range r x with h | h | h | h | h
  · exact absurd (hk ▸ h) hne
  · obtain ⟨⟨a1, a2⟩, a3, a4⟩ := d0 h
    rw [← hk, h]
    exact ⟨c1, by simp only [quadrantRegion, if_true]; linarith, c3,
      by simp only [quadrantRegion, if_true]; linarith⟩
  · obtain ⟨a1, a3, a4⟩ := d1 h
    rw [← hk, h]
    refine ⟨?_, ?_, ?_, ?_⟩ <;> norm_num [quadrantRegion] <;> linarith
  · obtain ⟨⟨a1, a2⟩, a3⟩ := d2 h
    rw [← hk, h]
    refine ⟨?_, ?_, ?_, ?_⟩ <;> norm_num [quadrantRegion] <;> linarith
  · obtain ⟨a1, a3⟩ := d3 h
    rw [← hk, h]
    refine ⟨?_, ?_, ?_, ?_⟩ <;> norm_num [quadrantRegion] <;> linarith

theorem subdivide_nodes_bounds (level : Int) (bounds : Rectangle) (objects : List Object)
    (n0 n1 n2 n3 : Quadtree) (k : Int) (hk : k = 0 ∨ k = 1 ∨ k = 2 ∨ k = 3) :
    ((subdivide (.node level bounds objects n0 n1 n2 n3)).nodes k).bounds
      = quadrantRegion bounds k := by
  rcases hk with rfl | rfl | rfl | rfl <;> rfl

theorem mem_allObjects_of_mem_objects (n : Quadtree) (x : Object) (h : x ∈ n.objects) :
    x ∈ n.allObjects := by
  cases n with
  | null => simp [Quadtree.objects] at h
  | node l b os c0 c1 c2 c3 => exact List.mem_append_left _ h

theorem containedIn_inClosed (b r : Rectangle) (h : containedIn b r) (px py : ℚ)
    (hp : inClosed b px py) : inClosed r px py := by
  obtain ⟨c1, c2, c3, c4⟩ := h
  obtain ⟨p1, p2, p3, p4⟩ := hp
  exact ⟨by linarith, by linarith, by linarith, by linarith⟩

/-- In a well-formed tree whose entries all lie inside the root's region,
the entries stored below any node lie inside that node's region. -/
theorem containedIn_subnodes : ∀ t : Quadtree, WellFormed t →
    (∀ x ∈ t.allObjects, containedIn x.bounds t.bounds) →
    ∀ n ∈ t.subnodes, ∀ x ∈ n.allObjects, containedIn x.bounds n.bounds := by
  intro t
  induction t with
  | null => intro h; exact absurd h (by simp [WellFormed])
  | node l b os c0 c1 c2 c3 ih0 ih1 ih2 ih3 =>
    intro h hin n hn
    simp only [Quadtree.subnodes, List.mem_cons, List.mem_append] at hn
    rcases hn with rfl | hn
    · exact hin
    · obtain ⟨_, ⟨h0, h1, h2, h3⟩ | ⟨_, _, k0, k1, k2, k3, w0, w1, w2, w3⟩⟩ := h
      · subst h0 h1 h2 h3
        simp [Quadtree.subnodes] at hn
      · simp only [Quadtree.allObjects, Quadtree.bounds, List.mem_append] at hin
        rcases hn with hn | hn | hn | hn
        · refine ih0 w0 (fun x hx => ?_) n hn
          rw [k0.2.1]
          exact containedIn_quadrant b x.bounds 0 (k0.2.2 x hx) (by decide)
            (hin x (Or.inr (Or.inl hx)))
        · refine ih1 w1 (fun x hx => ?_) n hn
          rw [k1.2.1]
          exact containedIn_quadrant b x.bounds 1 (k1.2.2 x hx) (by decide)
            (hin x (Or.inr (Or.inr (Or.inl hx))))
        · refine ih2 w2 (fun x hx => ?_) n hn
          rw [k2.2.1]
          exact containedIn_quadrant b x.bounds 2 (k2.2.2 x hx) (by decide)
            (hin x (Or.inr (Or.inr (Or.inr (Or.inl hx)))))
        · refine ih3 w3 (fun x hx => ?_) n hn
          rw [k3.2.1]
          exact containedIn_quadrant b x.bounds 3 (k3.2.2 x hx) (by decide)
            (hin x (Or.inr (Or.inr (Or.inr (Or.inr hx)))))

/-- With unbounded entry lists (the store of `insert` taken as an append),
stored entries lie inside the node that holds them. For a root
region with non-negative width and height and inserted entries whose bounds
have non-negative width and height and are contained in the root's closed
region, every entry stored directly at a node of the resulting tree has its
bounds contained in that node's closed region (corner by corner, hence point
by point); and bounds contained in a node's region that classify to a
quadrant `i` are contained in the region of the child `i` made by
`subdivide`. -/
theorem stored_entries_inside (region : Rectangle) (os : List Object)
    (hw : 0 ≤ region.width) (hh : 0 ≤ region.height)
    (hos : ∀ o ∈ os, 0 ≤ o.bounds.width ∧ 0 ≤ o.bounds.height ∧ containedIn o.bounds region) :
    (∃ root, insertAll (createQuadtree 0 region) os = some root ∧
      ∀ n ∈ root.subnodes, ∀ x ∈ n.objects,
        containedIn x.bounds n.bounds ∧
        ∀ px py : ℚ, inClosed x.bounds px py → inClosed n.bounds px py) ∧
    (∀ (level : Int) (bounds : Rectangle) (objects : List Object) (n0 n1 n2 n3 : Quadtree)
      (b : Rectangle) (i : Int), getIndex bounds b = i → i ≠ -1 → containedIn b bounds →
      containedIn b ((subdivide (.node level bounds objects n0 n1 n2 n3)).nodes i).bounds) := by
  have _ : 0 ≤ region.width ∧ 0 ≤ region.height := ⟨hw, hh⟩
  constructor
  · obtain ⟨root, h1, h2, _, h4, h5⟩ := insertAll_total region os
    refine ⟨root, h1, fun n hn x hx => ?_⟩
    have hroot : ∀ x ∈ root.allObjects, containedIn x.bounds root.bounds := by
      intro y hy
      have : y ∈ (root.allObjects : Multiset Object) := hy
      rw [h5] at this
      rw [h4]
      exact (hos y this).2.2
    have hc := containedIn_subnodes root h2 hroot n hn x (mem_allObjects_of_mem_objects n x hx)
    exact ⟨hc, containedIn_inClosed _ _ hc⟩
  · intro level bounds objects n0 n1 n2 n3 b i hi hne hc
    have hk : i = 0 ∨ i = 1 ∨ i = 2 ∨ i = 3 := by
      rcases getIndex_range bounds b with h' | h'
      · exact absurd (hi ▸ h') hne
      · rw [hi] at h'; exact h'
    rw [subdivide_nodes_bounds level bounds objects n0 n1 n2 n3 i hk]
    exact containedIn_quadrant bounds b i hi hne hc

/-- C20 fails on the code: the array `objects` has `MAX_OBJECTS` slots, and
the fifth `insert` into a leaf stores at index `objectCount = MAX_OBJECTS`.
Four entries that start on the midline `x = 50` of the root
`{0, 0, 100, 100}` fill the root's list; the root is still a leaf, so the
fifth call takes the store `objects[objectCount++] = object` with
`objectCount = 4`, and (the list being unbounded in the model) the root
afterwards holds `MAX_OBJECTS + 1` entries, none of which has a quadrant. -/
theorem store_beyond_capacity :
    insertAll (createQuadtree 0 ⟨0, 0, 100, 100⟩)
      [⟨1, ⟨50, 10, 5, 5⟩⟩, ⟨2, ⟨50, 20, 5, 5⟩⟩, ⟨3, ⟨50, 30, 5, 5⟩⟩, ⟨4, ⟨50, 40, 5, 5⟩⟩]
      = some (.node 0 ⟨0, 0, 100, 100⟩
          [⟨1, ⟨50, 10, 5, 5⟩⟩, ⟨2, ⟨50, 20, 5, 5⟩⟩, ⟨3, ⟨50, 30, 5, 5⟩⟩, ⟨4, ⟨50, 40, 5, 5⟩⟩]
          .null .null .null .null) ∧
    (Quadtree.node 0 ⟨0, 0, 100, 100⟩
      [⟨1, ⟨50, 10, 5, 5⟩⟩, ⟨2, ⟨50, 20, 5, 5⟩⟩, ⟨3, ⟨50, 30, 5, 5⟩⟩, ⟨4, ⟨50, 40, 5, 5⟩⟩]
      .null .null .null .null).objects.length = MAX_OBJECTS ∧
    (Quadtree.node 0 ⟨0, 0, 100, 100⟩
      [⟨1, ⟨50, 10, 5, 5⟩⟩, ⟨2, ⟨50, 20, 5, 5⟩⟩, ⟨3, ⟨50, 30, 5, 5⟩⟩, ⟨4, ⟨50, 40, 5, 5⟩⟩]
      .null .null .null .null).insert ⟨5, ⟨50, 50, 5, 5⟩⟩
      = some (.node 0 ⟨0, 0, 100, 100⟩
          [⟨1, ⟨50, 10, 5, 5⟩⟩, ⟨2, ⟨50, 20, 5, 5⟩⟩, ⟨3, ⟨50, 30, 5, 5⟩⟩, ⟨4, ⟨50, 40, 5, 5⟩⟩,
            ⟨5, ⟨50, 50, 5, 5⟩⟩]
          (.node 1 ⟨0, 0, 50, 50⟩ [] .null .null .null .null)
          (.node 1 ⟨50, 0, 50, 50⟩ [] .null .null .null .null)
          (.node 1 ⟨0, 50, 50, 50⟩ [] .null .null .null .null)
          (.node 1 ⟨50, 50, 50, 50⟩ [] .null .null .null .null)) ∧
    (Quadtree.node 0 ⟨0, 0, 100, 100⟩
      [⟨1, ⟨50, 10, 5, 5⟩⟩, ⟨2, ⟨50, 20, 5, 5⟩⟩, ⟨3, ⟨50, 30, 5, 5⟩⟩, ⟨4, ⟨50, 40, 5, 5⟩⟩,
        ⟨5, ⟨50, 50, 5, 5⟩⟩]
      (.node 1 ⟨0, 0, 50, 50⟩ [] .null .null .null .null)
      (.node 1 ⟨50, 0, 50, 50⟩ [] .null .null .null .null)
      (.node 1 ⟨0, 50, 50, 50⟩ [] .null .null .null .null)
      (.node 1 ⟨50, 50, 50, 50⟩ [] .null .null .null .null)).objects.length
      = MAX_OBJECTS + 1 := by
  have g1 : getIndex ⟨0, 0, 100, 100⟩ ⟨50, 10, 5, 5⟩ = -1 := by norm_num [getIndex]
  have g2 : getIndex ⟨0, 0, 100, 100⟩ ⟨50, 20, 5, 5⟩ = -1 := by norm_num [getIndex]
  have g3 : getIndex ⟨0, 0, 100, 100⟩ ⟨50, 30, 5, 5⟩ = -1 := by norm_num [getIndex]
  have g4 : getIndex ⟨0, 0, 100, 100⟩ ⟨50, 40, 5, 5⟩ = -1 := by norm_num [getIndex]
  have g5 : getIndex ⟨0, 0, 100, 100⟩ ⟨50, 50, 5, 5⟩ = -1 := by norm_num [getIndex]
  have h6 : (MAX_LEVELS + 1).toNat = 5 + 1 := by decide
  refine ⟨?_, rfl, ?_, rfl⟩
  · simpa [createQuadtree] using insertAll_leaf 0 ⟨0, 0, 100, 100⟩
      [⟨1, ⟨50, 10, 5, 5⟩⟩, ⟨2, ⟨50, 20, 5, 5⟩⟩, ⟨3, ⟨50, 30, 5, 5⟩⟩, ⟨4, ⟨50, 40, 5, 5⟩⟩] []
      (by decide)
  · rw [Quadtree.insert, h6]
    simp [insertFuel, redistribute, subdivide, createQuadtree, g1, g2, g3, g4, g5,
      MAX_LEVELS, MAX_OBJECTS, Quadtree.isNull, Quadtree.nodes, Quadtree.setNode,
      Quadtree.pushObject, Quadtree.objects, Quadtree.setObjects, Quadtree.bounds]
    norm_num

/-! ## Reaching an inserted entry -/

/-- C2: an inserted entry is reachable by querying with its own bounds. With
each node's entry list an unbounded sequence, every sequence of `insert`
calls on a fresh root `createQuadtree(0, region)` succeeds, and for every
entry `e` of the sequence and every probe with the bounds of `e`, `retrieve`
(started on an empty output buffer) returns a sequence that contains `e`. -/
theorem retrieve_finds_inserted (region : Rectangle) (os : List Object) (e probe : Object)
    (he : e ∈ os) (hb : probe.bounds = e.bounds) :
    ∃ root, insertAll (createQuadtree 0 region) os = some root ∧
      ∃ r, retrieve root probe [] = some r ∧ e ∈ r := by
  obtain ⟨root, h1, h2, _, _, h5⟩ := insertAll_total region os
  refine ⟨root, h1, retrieveRef root probe.bounds, ?_, ?_⟩
  · simpa using retrieve_eq_retrieveRef probe root [] (wellFormed_wellShaped root h2)
  · rw [hb]
    apply mem_retrieveRef_self e root h2
    have : e ∈ (root.allObjects : Multiset Object) := by rw [h5]; exact he
    exact this

/-- Witness for C2: the three entries of `main` and a fourth, queried with a
probe that is not an entry (id 9) and has the bounds of entry 3. -/
theorem retrieve_finds_inserted_witness :
    (⟨3, ⟨80, 80, 5, 5⟩⟩ : Object) ∈
        ([⟨1, ⟨10, 10, 5, 5⟩⟩, ⟨2, ⟨15, 15, 5, 5⟩⟩, ⟨3, ⟨80, 80, 5, 5⟩⟩,
          ⟨4, ⟨50, 80, 5, 5⟩⟩] : List Object) ∧
    (⟨9, ⟨80, 80, 5, 5⟩⟩ : Object).bounds = (⟨3, ⟨80, 80, 5, 5⟩⟩ : Object).bounds ∧
    ∃ root, insertAll (createQuadtree 0 ⟨0, 0, 100, 100⟩)
        [⟨1, ⟨10, 10, 5, 5⟩⟩, ⟨2, ⟨15, 15, 5, 5⟩⟩, ⟨3, ⟨80, 80, 5, 5⟩⟩, ⟨4, ⟨50, 80, 5, 5⟩⟩]
        = some root ∧
      ∃ r, retrieve root ⟨9, ⟨80, 80, 5, 5⟩⟩ [] = some r ∧ (⟨3, ⟨80, 80, 5, 5⟩⟩ : Object) ∈ r :=
  ⟨by simp, rfl, retrieve_finds_inserted _ _ _ ⟨9, ⟨80, 80, 5, 5⟩⟩ (by simp) rfl⟩

/-! ## `insert` on the declared array -/

/-- The store of `insert` on the declared array while it is in bounds: the
entry is appended and the overflow test fails. -/
theorem insertInBoundsFuel_store (fuel : Nat) (l : Int) (b : Rectangle) (os : List Object)
    (c0 c1 c2 c3 : Quadtree) (o : Object)
    (happ : c0.isNull = true ∨ getIndex b o.bounds = -1) (hlen : os.length < MAX_OBJECTS) :
    insertInBoundsFuel (fuel + 1) (.node l b os c0 c1 c2 c3) o
      = some (.node l b (os ++ [o]) c0 c1 c2 c3) := by
  have h1 : (!c0.isNull && decide (getIndex b o.bounds ≠ -1)) = false := by
    rcases happ with h | h <;> simp [h]
  have h2 : ¬ ((os ++ [o]).length > MAX_OBJECTS ∧ l < MAX_LEVELS) := by
    simp only [List.length_append, List.length_cons, List.length_nil]
    omega
  simp only [insertInBoundsFuel, h1, Bool.false_eq_true, if_false, hlen, if_true, h2]

/-- The store of `insert` on the declared array once the array is full: the
index is `objectCount ≥ MAX_OBJECTS`, past the end, and there is no result,
whatever nesting depth is allowed. -/
theorem insertInBoundsFuel_full (fuel : Nat) (l : Int) (b : Rectangle) (os : List Object)
    (c0 c1 c2 c3 : Quadtree) (o : Object)
    (happ : c0.isNull = true ∨ getIndex b o.bounds = -1) (hlen : MAX_OBJECTS ≤ os.length) :
    insertInBoundsFuel fuel (.node l b os c0 c1 c2 c3) o = none := by
  cases fuel with
  | zero => rfl
  | succ f =>
    have h1 : (!c0.isNull && decide (getIndex b o.bounds ≠ -1)) = false := by
      rcases happ with h | h <;> simp [h]
    have h2 : ¬ os.length < MAX_OBJECTS := by omega
    simp only [insertInBoundsFuel, h1, Bool.false_eq_true, if_false, h2]

/-- Wherever `insert` on the declared array has a result, `insert` on
unbounded entry lists has the same result. -/
theorem insertInBoundsFuel_refines : ∀ (fuel : Nat) (t : Quadtree) (o : Object) (t' : Quadtree),
    insertInBoundsFuel fuel t o = some t' → insertFuel fuel t o = some t' := by
  intro fuel
  induction fuel with
  | zero => intro t o t' h; simp [insertInBoundsFuel] at h
  | succ f ih =>
    intro t o t' h
    cases t with
    | null => simp [insertInBoundsFuel] at h
    | node l b os c0 c1 c2 c3 =>
      simp only [insertInBoundsFuel] at h
      simp only [insertFuel]
      by_cases h1 : (!c0.isNull && decide (getIndex b o.bounds ≠ -1)) = true
      · simp only [h1, if_true] at h ⊢
        cases hc : insertInBoundsFuel f ((Quadtree.node l b os c0 c1 c2 c3).nodes
            (getIndex b o.bounds)) o with
        | none => simp [hc] at h
        | some c =>
          simp only [hc] at h
          simp only [ih _ _ _ hc]
          exact h
      · simp only [h1, Bool.false_eq_true, if_false] at h ⊢
        by_cases hlen : os.length < MAX_OBJECTS
        · have h2 : ¬ ((os ++ [o]).length > MAX_OBJECTS ∧ l < MAX_LEVELS) := by
            simp only [List.length_append, List.length_cons, List.length_nil]
            omega
          simp only [hlen, if_true, h2, if_false] at h ⊢
          exact h
        · simp only [hlen, if_false] at h
          exact absurd h (by simp)

/-- A sequence of `insert` calls on a leaf, on the declared array: the entries
are appended while they fit, and there is no result once one does not. -/
theorem insertAllInBounds_leaf (level : Int) (region : Rectangle) (os : List Object) :
    ∀ kept : List Object, kept.length ≤ MAX_OBJECTS →
      insertAllInBounds (.node level region kept .null .null .null .null) os
        = if kept.length + os.length ≤ MAX_OBJECTS then
            some (.node level region (kept ++ os) .null .null .null .null)
          else none := by
  have h6 : (MAX_LEVELS + 1).toNat = 5 + 1 := by decide
  induction os with
  | nil => intro kept hk; simp [insertAllInBounds, hk]
  | cons o os ih =>
    intro kept hk
    by_cases hlen : kept.length < MAX_OBJECTS
    · have hk' : (kept ++ [o]).length ≤ MAX_OBJECTS := by
        simp only [List.length_append, List.length_cons, List.length_nil]
        omega
      simp only [insertAllInBounds, Quadtree.insertInBounds, h6,
        insertInBoundsFuel_store 5 level region kept .null .null .null .null o (Or.inl rfl) hlen]
      rw [ih (kept ++ [o]) hk']
      by_cases hfit : kept.length + (o :: os).length ≤ MAX_OBJECTS
      · have hfit' : (kept ++ [o]).length + os.length ≤ MAX_OBJECTS := by
          simp only [List.length_append, List.length_cons, List.length_nil] at hfit ⊢
          omega
        simp only [hfit, hfit', if_true, List.append_assoc, List.singleton_append]
      · have hfit' : ¬ ((kept ++ [o]).length + os.length ≤ MAX_OBJECTS) := by
          simp only [List.length_append, List.length_cons, List.length_nil] at hfit ⊢
          omega
        simp only [hfit, hfit', if_false]
    · have hfull : MAX_OBJECTS ≤ kept.length := by omega
      have hfit : ¬ (kept.length + (o :: os).length ≤ MAX_OBJECTS) := by
        simp only [List.length_cons]
        omega
      simp only [insertAllInBounds, Quadtree.insertInBounds,
        insertInBoundsFuel_full _ level region kept .null .null .null .null o (Or.inl rfl) hfull,
        hfit, if_false]

/-- What the code does with a sequence of `insert` calls on a fresh root: up
to `MAX_OBJECTS` entries are stored in the root, which stays a leaf; the next
store is past the end of `objects` and there is no result. -/
theorem insertAllInBounds_fresh (level : Int) (region : Rectangle) (os : List Object) :
    insertAllInBounds (createQuadtree level region) os
      = if os.length ≤ MAX_OBJECTS then some (.node level region os .null .null .null .null)
        else none := by
  simpa [createQuadtree] using insertAllInBounds_leaf level region os [] (by simp)

/-- C5 fails on the code. On the declared array a sequence of `insert` calls
on a fresh level-0 root has a result only up to `MAX_OBJECTS` entries, and
that result is the root alone, a leaf at level 0; the fifth call stores at
`objects[4]`, past the end of the array, and no tree results: five entries
crowded into one corner of `{0, 0, 100, 100}` give no result, where the claim
has a tree with every level at most `MAX_LEVELS`. -/
theorem depth_bound_out_of_bounds :
    (∀ (region : Rectangle) (os : List Object),
      insertAllInBounds (createQuadtree 0 region) os
        = if os.length ≤ MAX_OBJECTS then some (.node 0 region os .null .null .null .null)
          else none) ∧
    insertAllInBounds (createQuadtree 0 ⟨0, 0, 100, 100⟩)
      [⟨1, ⟨1, 1, 1, 1⟩⟩, ⟨2, ⟨2, 2, 1, 1⟩⟩, ⟨3, ⟨1, 2, 1, 1⟩⟩, ⟨4, ⟨2, 1, 1, 1⟩⟩,
        ⟨5, ⟨3, 3, 1, 1⟩⟩] = none := by
  refine ⟨fun region os => insertAllInBounds_fresh 0 region os, ?_⟩
  rw [insertAllInBounds_fresh]
  rfl

/-- C6 fails on the code. Four entries in the north-west quadrant of
`{0, 0, 100, 100}` are stored in the root, which has no children, as the
claim says; the fifth entry `{40, 40, 5, 5}`, which classifies determinately,
is stored at `objects[4]`, past the end of the array, before any subdivision:
the call has no result, whatever nesting depth is allowed, where the claim
has a root with four children. -/
theorem capacity_trigger_out_of_bounds :
    (∀ o ∈ ([⟨1, ⟨10, 10, 5, 5⟩⟩, ⟨2, ⟨15, 15, 5, 5⟩⟩, ⟨3, ⟨20, 20, 5, 5⟩⟩,
        ⟨4, ⟨30, 30, 5, 5⟩⟩] : List Object), getIndex ⟨0, 0, 100, 100⟩ o.bounds = 0) ∧
    getIndex ⟨0, 0, 100, 100⟩ (⟨5, ⟨40, 40, 5, 5⟩⟩ : Object).bounds = 0 ∧
    insertAllInBounds (createQuadtree 0 ⟨0, 0, 100, 100⟩)
      [⟨1, ⟨10, 10, 5, 5⟩⟩, ⟨2, ⟨15, 15, 5, 5⟩⟩, ⟨3, ⟨20, 20, 5, 5⟩⟩, ⟨4, ⟨30, 30, 5, 5⟩⟩]
      = some (.node 0 ⟨0, 0, 100, 100⟩
          [⟨1, ⟨10, 10, 5, 5⟩⟩, ⟨2, ⟨15, 15, 5, 5⟩⟩, ⟨3, ⟨20, 20, 5, 5⟩⟩, ⟨4, ⟨30, 30, 5, 5⟩⟩]
          .null .null .null .null) ∧
    (Quadtree.node 0 ⟨0, 0, 100, 100⟩
      [⟨1, ⟨10, 10, 5, 5⟩⟩, ⟨2, ⟨15, 15, 5, 5⟩⟩, ⟨3, ⟨20, 20, 5, 5⟩⟩, ⟨4, ⟨30, 30, 5, 5⟩⟩]
      .null .null .null .null).isLeaf = true ∧
    ∀ fuel : Nat, insertInBoundsFuel fuel (.node 0 ⟨0, 0, 100, 100⟩
      [⟨1, ⟨10, 10, 5, 5⟩⟩, ⟨2, ⟨15, 15, 5, 5⟩⟩, ⟨3, ⟨20, 20, 5, 5⟩⟩, ⟨4, ⟨30, 30, 5, 5⟩⟩]
      .null .null .null .null) ⟨5, ⟨40, 40, 5, 5⟩⟩ = none := by
  refine ⟨by norm_num [getIndex], by norm_num [getIndex], ?_, rfl, fun fuel => ?_⟩
  · rw [insertAllInBounds_fresh]
    rfl
  · exact insertInBoundsFuel_full fuel _ _ _ _ _ _ _ _ (Or.inl rfl) (by decide)

/-- C9 fails on the code. Bounds that start on a node's vertical midline get
index -1, and inserting an entry with such bounds into a node with children
appends it to the node's own list and changes nothing else, as the claim
says, while the node holds fewer than `MAX_OBJECTS` entries. Once it holds
`MAX_OBJECTS`, the store is at `objects[4]`, past the end of the array, and
the call has no result. The root `{0, 0, 100, 100}`, subdivided by
`subdivide` and given four entries that start at `x = 50`, is such a node:
the fifth such entry is not appended. -/
theorem boundary_insert_out_of_bounds :
    (∀ nodeRegion b : Rectangle, b.x = midX nodeRegion → getIndex nodeRegion b = -1) ∧
    (∀ (fuel : Nat) (l : Int) (r : Rectangle) (kept : List Object) (c0 c1 c2 c3 : Quadtree)
      (e : Object), c0.isNull = false → e.bounds.x = midX r → kept.length < MAX_OBJECTS →
        insertInBoundsFuel (fuel + 1) (.node l r kept c0 c1 c2 c3) e
          = some (.node l r (kept ++ [e]) c0 c1 c2 c3)) ∧
    (∀ (fuel : Nat) (l : Int) (r : Rectangle) (kept : List Object) (c0 c1 c2 c3 : Quadtree)
      (e : Object), c0.isNull = false → e.bounds.x = midX r → MAX_OBJECTS ≤ kept.length →
        insertInBoundsFuel fuel (.node l r kept c0 c1 c2 c3) e = none) ∧
    insertAllInBounds (subdivide (createQuadtree 0 ⟨0, 0, 100, 100⟩))
      [⟨1, ⟨50, 10, 5, 5⟩⟩, ⟨2, ⟨50, 20, 5, 5⟩⟩, ⟨3, ⟨50, 30, 5, 5⟩⟩, ⟨4, ⟨50, 40, 5, 5⟩⟩]
      = some (.node 0 ⟨0, 0, 100, 100⟩
          [⟨1, ⟨50, 10, 5, 5⟩⟩, ⟨2, ⟨50, 20, 5, 5⟩⟩, ⟨3, ⟨50, 30, 5, 5⟩⟩, ⟨4, ⟨50, 40, 5, 5⟩⟩]
          (.node 1 ⟨0, 0, 50, 50⟩ [] .null .null .null .null)
          (.node 1 ⟨50, 0, 50, 50⟩ [] .null .null .null .null)
          (.node 1 ⟨0, 50, 50, 50⟩ [] .null .null .null .null)
          (.node 1 ⟨50, 50, 50, 50⟩ [] .null .null .null .null)) ∧
    (Quadtree.node 0 ⟨0, 0, 100, 100⟩
        [⟨1, ⟨50, 10, 5, 5⟩⟩, ⟨2, ⟨50, 20, 5, 5⟩⟩, ⟨3, ⟨50, 30, 5, 5⟩⟩, ⟨4, ⟨50, 40, 5, 5⟩⟩]
        (.node 1 ⟨0, 0, 50, 50⟩ [] .null .null .null .null)
        (.node 1 ⟨50, 0, 50, 50⟩ [] .null .null .null .null)
        (.node 1 ⟨0, 50, 50, 50⟩ [] .null .null .null .null)
        (.node 1 ⟨50, 50, 50, 50⟩ [] .null .null .null .null)).insertInBounds
        ⟨5, ⟨50, 50, 5, 5⟩⟩ = none := by
  have g : ∀ y : ℚ, getIndex ⟨0, 0, 100, 100⟩ ⟨50, y, 5, 5⟩ = -1 := by
    intro y
    exact getIndex_on_midX _ _ (by norm_num [midX])
  have h6 : (MAX_LEVELS + 1).toNat = 5 + 1 := by decide
  refine ⟨getIndex_on_midX, ?_, ?_, ?_, ?_⟩
  · intro fuel l r kept c0 c1 c2 c3 e _ he hlen
    exact insertInBoundsFuel_store fuel l r kept c0 c1 c2 c3 e
      (Or.inr (getIndex_on_midX r e.bounds he)) hlen
  · intro fuel l r kept c0 c1 c2 c3 e _ he hlen
    exact insertInBoundsFuel_full fuel l r kept c0 c1 c2 c3 e
      (Or.inr (getIndex_on_midX r e.bounds he)) hlen
  · simp only [insertAllInBounds, Quadtree.insertInBounds, h6, subdivide, createQuadtree]
    rw [insertInBoundsFuel_store 5 _ _ _ _ _ _ _ _ (Or.inr (g 10)) (by decide)]
    simp only []
    rw [insertInBoundsFuel_store 5 _ _ _ _ _ _ _ _ (Or.inr (g 20)) (by decide)]
    simp only []
    rw [insertInBoundsFuel_store 5 _ _ _ _ _ _ _ _ (Or.inr (g 30)) (by decide)]
    simp only []
    rw [insertInBoundsFuel_store 5 _ _ _ _ _ _ _ _ (Or.inr (g 40)) (by decide)]
    norm_num
  · exact insertInBoundsFuel_full _ _ _ _ _ _ _ _ _ (Or.inr (g 50)) (by decide)

/-- On a fresh root the declared array allows a sequence of `insert` calls
exactly when it has at most `MAX_OBJECTS` entries, and `retrieve` then returns
the inserted sequence itself, whatever the probe. -/
theorem retrieve_fresh_in_bounds (region : Rectangle) (os : List Object) (probe : Object) :
    (insertAllInBounds (createQuadtree 0 region) os).bind (fun root => retrieve root probe [])
      = if os.length ≤ MAX_OBJECTS then some os else none := by
  rw [insertAllInBounds_fresh]
  by_cases h : os.length ≤ MAX_OBJECTS
  · simp [h, retrieve, Quadtree.isNull]
  · simp [h]

/-- C10 fails on the code. Whenever a sequence of `insert` calls on a fresh
level-0 root has a result on the declared array, the sequence has at most
`MAX_OBJECTS` entries and the result is a single node without children: four
entries, one in each quadrant of `{0, 0, 100, 100}`, leave the root a leaf.
The fifth call stores at `objects[4]`, past the end of the array, and no tree
results, where the claim has a tree whose root has four children with the
stated levels and regions. -/
theorem structure_out_of_bounds :
    (∀ (region : Rectangle) (os : List Object) (root : Quadtree),
      insertAllInBounds (createQuadtree 0 region) os = some root →
        os.length ≤ MAX_OBJECTS ∧ root.isLeaf = true ∧ root.subnodes = [root]) ∧
    insertAllInBounds (createQuadtree 0 ⟨0, 0, 100, 100⟩)
      [⟨1, ⟨10, 10, 5, 5⟩⟩, ⟨2, ⟨60, 10, 5, 5⟩⟩, ⟨3, ⟨10, 60, 5, 5⟩⟩, ⟨4, ⟨60, 60, 5, 5⟩⟩]
      = some (.node 0 ⟨0, 0, 100, 100⟩
          [⟨1, ⟨10, 10, 5, 5⟩⟩, ⟨2, ⟨60, 10, 5, 5⟩⟩, ⟨3, ⟨10, 60, 5, 5⟩⟩, ⟨4, ⟨60, 60, 5, 5⟩⟩]
          .null .null .null .null) ∧
    insertAllInBounds (createQuadtree 0 ⟨0, 0, 100, 100⟩)
      [⟨1, ⟨10, 10, 5, 5⟩⟩, ⟨2, ⟨60, 10, 5, 5⟩⟩, ⟨3, ⟨10, 60, 5, 5⟩⟩, ⟨4, ⟨60, 60, 5, 5⟩⟩,
        ⟨5, ⟨20, 20, 5, 5⟩⟩] = none := by
  refine ⟨fun region os root h => ?_, ?_, ?_⟩
  · rw [insertAllInBounds_fresh] at h
    by_cases hl : os.length ≤ MAX_OBJECTS
    · rw [if_pos hl] at h
      cases h
      exact ⟨hl, rfl, rfl⟩
    · rw [if_neg hl] at h
      cases h
  · rw [insertAllInBounds_fresh]
    rfl
  · rw [insertAllInBounds_fresh]
    rfl

/-- C11 fails on the code. A root that holds `MAX_OBJECTS` entries is
reachable from a fresh level-0 root by `insert` calls, and on it `insert` has
no result, whatever nesting depth is allowed: the call stores at `objects[4]`,
past the end of the array, before any test. `retrieve` does return on every
tree the array allows, with one call and no nested call. The entries of `main`
and a fourth give such a root; the next `insert` on it has no result, where
the claim has it terminate. -/
theorem insert_out_of_bounds_no_return :
    (∀ (region : Rectangle) (os : List Object), os.length = MAX_OBJECTS →
      insertAllInBounds (createQuadtree 0 region) os
        = some (.node 0 region os .null .null .null .null) ∧
      ∀ (fuel : Nat) (o : Object),
        insertInBoundsFuel fuel (.node 0 region os .null .null .null .null) o = none) ∧
    (∀ (region : Rectangle) (os : List Object) (root : Quadtree) (probe : Object),
      insertAllInBounds (createQuadtree 0 region) os = some root →
        retrieveFuel 1 root probe [] = some os) ∧
    insertAllInBounds (createQuadtree 0 ⟨0, 0, 100, 100⟩)
      [⟨1, ⟨10, 10, 5, 5⟩⟩, ⟨2, ⟨15, 15, 5, 5⟩⟩, ⟨3, ⟨80, 80, 5, 5⟩⟩, ⟨4, ⟨50, 80, 5, 5⟩⟩]
      = some (.node 0 ⟨0, 0, 100, 100⟩
          [⟨1, ⟨10, 10, 5, 5⟩⟩, ⟨2, ⟨15, 15, 5, 5⟩⟩, ⟨3, ⟨80, 80, 5, 5⟩⟩, ⟨4, ⟨50, 80, 5, 5⟩⟩]
          .null .null .null .null) ∧
    (Quadtree.node 0 ⟨0, 0, 100, 100⟩
      [⟨1, ⟨10, 10, 5, 5⟩⟩, ⟨2, ⟨15, 15, 5, 5⟩⟩, ⟨3, ⟨80, 80, 5, 5⟩⟩, ⟨4, ⟨50, 80, 5, 5⟩⟩]
      .null .null .null .null).insertInBounds ⟨5, ⟨30, 30, 5, 5⟩⟩ = none := by
  refine ⟨fun region os hl => ⟨?_, fun fuel o => ?_⟩, fun region os root probe h => ?_, ?_, ?_⟩
  · rw [insertAllInBounds_fresh, if_pos (le_of_eq hl)]
  · exact insertInBoundsFuel_full fuel _ _ _ _ _ _ _ _ (Or.inl rfl) (le_of_eq hl.symm)
  · rw [insertAllInBounds_fresh] at h
    by_cases hl : os.length ≤ MAX_OBJECTS
    · rw [if_pos hl] at h
      cases h
      simp [retrieveFuel, Quadtree.isNull]
    · rw [if_neg hl] at h
      cases h
  · rw [insertAllInBounds_fresh]
    rfl
  · exact insertInBoundsFuel_full _ _ _ _ _ _ _ _ _ (Or.inl rfl) (by decide)

/-- C14 fails on the code. An append that makes the entry count exceed
`MAX_OBJECTS` is a store at index `MAX_OBJECTS` or beyond of an array with
`MAX_OBJECTS` slots: whenever `insert` takes the store at a node (the node has
no children, or the entry has no quadrant) and the count would thereby exceed
`MAX_OBJECTS`, the call has no result on the declared array, whatever the
level and whatever nesting depth is allowed. On the level-0 leaf
`{0, 0, 100, 100}` holding four entries the store of a fifth is at
`objects[4]`, where the claim has the node subdivided and its entries
redistributed. -/
theorem overflow_store_out_of_bounds :
    (∀ (fuel : Nat) (l : Int) (b : Rectangle) (os : List Object) (c0 c1 c2 c3 : Quadtree)
      (e : Object), (c0.isNull = true ∨ getIndex b e.bounds = -1) →
        (os ++ [e]).length > MAX_OBJECTS →
        insertInBoundsFuel fuel (.node l b os c0 c1 c2 c3) e = none) ∧
    (0 : Int) < MAX_LEVELS ∧
    (([⟨1, ⟨10, 10, 5, 5⟩⟩, ⟨2, ⟨60, 10, 5, 5⟩⟩, ⟨3, ⟨10, 60, 5, 5⟩⟩, ⟨4, ⟨60, 60, 5, 5⟩⟩]
        : List Object) ++ [(⟨5, ⟨20, 20, 5, 5⟩⟩ : Object)]).length > MAX_OBJECTS ∧
    (Quadtree.node 0 ⟨0, 0, 100, 100⟩
      [⟨1, ⟨10, 10, 5, 5⟩⟩, ⟨2, ⟨60, 10, 5, 5⟩⟩, ⟨3, ⟨10, 60, 5, 5⟩⟩, ⟨4, ⟨60, 60, 5, 5⟩⟩]
      .null .null .null .null).insertInBounds ⟨5, ⟨20, 20, 5, 5⟩⟩ = none := by
  refine ⟨fun fuel l b os c0 c1 c2 c3 e happ hlen => ?_, by decide, by decide, ?_⟩
  · refine insertInBoundsFuel_full fuel l b os c0 c1 c2 c3 e happ ?_
    simp only [List.length_append, List.length_singleton] at hlen
    omega
  · exact insertInBoundsFuel_full _ _ _ _ _ _ _ _ _ (Or.inl rfl) (by decide)

/-- C15 fails on the code. Whenever a sequence of `insert` calls on a fresh
root has a result on the declared array, no node of the result has children
and the root holds every inserted entry, with or without a quadrant. Four
entries with a quadrant followed by one that starts on the midline `x = 50`
of `{0, 0, 100, 100}` give no result: the fifth call stores at `objects[4]`,
past the end of the array, where the claim has a subdivided root that holds
the midline entry alone. -/
theorem interior_entries_out_of_bounds :
    (∀ (region : Rectangle) (os : List Object) (root : Quadtree),
      insertAllInBounds (createQuadtree 0 region) os = some root →
        (∀ n ∈ root.subnodes, n.hasFourChildren = false ∧ n.isLeaf = true) ∧
        root.objects = os) ∧
    (∀ o ∈ ([⟨1, ⟨10, 10, 5, 5⟩⟩, ⟨2, ⟨60, 10, 5, 5⟩⟩, ⟨3, ⟨10, 60, 5, 5⟩⟩,
        ⟨4, ⟨60, 60, 5, 5⟩⟩] : List Object), getIndex ⟨0, 0, 100, 100⟩ o.bounds ≠ -1) ∧
    getIndex ⟨0, 0, 100, 100⟩ (⟨5, ⟨50, 20, 5, 5⟩⟩ : Object).bounds = -1 ∧
    insertAllInBounds (createQuadtree 0 ⟨0, 0, 100, 100⟩)
      [⟨1, ⟨10, 10, 5, 5⟩⟩, ⟨2, ⟨60, 10, 5, 5⟩⟩, ⟨3, ⟨10, 60, 5, 5⟩⟩, ⟨4, ⟨60, 60, 5, 5⟩⟩,
        ⟨5, ⟨50, 20, 5, 5⟩⟩] = none := by
  refine ⟨fun region os root h => ?_, by norm_num [getIndex], by norm_num [getIndex], ?_⟩
  · rw [insertAllInBounds_fresh] at h
    by_cases hl : os.length ≤ MAX_OBJECTS
    · rw [if_pos hl] at h
      cases h
      refine ⟨fun n hn => ?_, rfl⟩
      simp only [Quadtree.subnodes, List.append_nil, List.mem_singleton] at hn
      subst hn
      exact ⟨rfl, rfl⟩
    · rw [if_neg hl] at h
      cases h
  · rw [insertAllInBounds_fresh]
    rfl

/-- C18 fails on the code. On a fresh root the declared array allows a
sequence of `insert` calls exactly when it has at most `MAX_OBJECTS` entries;
`retrieve` then returns the inserted sequence itself for every probe, each
inserted entry once and nothing else. Five entries with pairwise distinct ids
give no tree to query: the fifth call stores at `objects[4]`, past the end of
the array, where the claim has `retrieve` return a sequence. -/
theorem retrieve_result_out_of_bounds :
    (∀ (region : Rectangle) (os : List Object) (probe : Object),
      (insertAllInBounds (createQuadtree 0 region) os).bind
          (fun root => retrieve root probe [])
        = if os.length ≤ MAX_OBJECTS then some os else none) ∧
    (([⟨1, ⟨10, 10, 5, 5⟩⟩, ⟨2, ⟨15, 15, 5, 5⟩⟩, ⟨3, ⟨80, 80, 5, 5⟩⟩, ⟨4, ⟨60, 10, 5, 5⟩⟩,
        ⟨5, ⟨10, 60, 5, 5⟩⟩] : List Object).map Object.id).Nodup ∧
    (insertAllInBounds (createQuadtree 0 ⟨0, 0, 100, 100⟩)
      [⟨1, ⟨10, 10, 5, 5⟩⟩, ⟨2, ⟨15, 15, 5, 5⟩⟩, ⟨3, ⟨80, 80, 5, 5⟩⟩, ⟨4, ⟨60, 10, 5, 5⟩⟩,
        ⟨5, ⟨10, 60, 5, 5⟩⟩]).bind (fun root => retrieve root ⟨9, ⟨12, 12, 5, 5⟩⟩ [])
      = none := by
  refine ⟨retrieve_fresh_in_bounds, by decide, ?_⟩
  rw [retrieve_fresh_in_bounds]
  rfl

/-- C19 fails on the code. The geometric part holds: bounds contained in a
node's region that classify to a quadrant `i` are contained in the region of
the child `i` made by `subdivide`. And whenever a sequence of `insert` calls
on a fresh root has a result on the declared array, every entry is held by the
root, so entries inside the root region are inside their node. But five
entries inside `{0, 0, 100, 100}` give no result: the fifth call stores at
`objects[4]`, past the end of the array, where the claim has a tree whose
nodes contain their entries. -/
theorem stored_inside_out_of_bounds :
    (∀ (level : Int) (bounds : Rectangle) (objects : List Object) (n0 n1 n2 n3 : Quadtree)
      (b : Rectangle) (i : Int), getIndex bounds b = i → i ≠ -1 → containedIn b bounds →
      containedIn b ((subdivide (.node level bounds objects n0 n1 n2 n3)).nodes i).bounds) ∧
    (∀ (region : Rectangle) (os : List Object) (root : Quadtree),
      (∀ o ∈ os, containedIn o.bounds region) →
      insertAllInBounds (createQuadtree 0 region) os = some root →
        ∀ n ∈ root.subnodes, ∀ x ∈ n.objects, containedIn x.bounds n.bounds) ∧
    (∀ o ∈ ([⟨1, ⟨10, 10, 5, 5⟩⟩, ⟨2, ⟨60, 10, 5, 5⟩⟩, ⟨3, ⟨10, 60, 5, 5⟩⟩,
        ⟨4, ⟨60, 60, 5, 5⟩⟩, ⟨5, ⟨95, 95, 5, 5⟩⟩] : List Object),
      0 ≤ o.bounds.width ∧ 0 ≤ o.bounds.height ∧ containedIn o.bounds ⟨0, 0, 100, 100⟩) ∧
    insertAllInBounds (createQuadtree 0 ⟨0, 0, 100, 100⟩)
      [⟨1, ⟨10, 10, 5, 5⟩⟩, ⟨2, ⟨60, 10, 5, 5⟩⟩, ⟨3, ⟨10, 60, 5, 5⟩⟩, ⟨4, ⟨60, 60, 5, 5⟩⟩,
        ⟨5, ⟨95, 95, 5, 5⟩⟩] = none := by
  refine ⟨?_, fun region os root hos h => ?_, by norm_num [containedIn], ?_⟩
  · intro level bounds objects n0 n1 n2 n3 b i hi hne hc
    have hk : i = 0 ∨ i = 1 ∨ i = 2 ∨ i = 3 := by
      rcases getIndex_range bounds b with h' | h'
      · exact absurd (hi ▸ h') hne
      · rw [hi] at h'; exact h'
    rw [subdivide_nodes_bounds level bounds objects n0 n1 n2 n3 i hk]
    exact containedIn_quadrant bounds b i hi hne hc
  · rw [insertAllInBounds_fresh] at h
    by_cases hl : os.length ≤ MAX_OBJECTS
    · rw [if_pos hl] at h
      cases h
      intro n hn x hx
      simp only [Quadtree.subnodes, List.append_nil, List.mem_singleton] at hn
      subst hn
      exact hos x hx
    · rw [if_neg hl] at h
      cases h
  · rw [insertAllInBounds_fresh]
    rfl

/-! ## `float` rounding -/

/-- The binary exponent of a positive number between `2^k` and `2^(k+1)`. -/
theorem log_two_eq (q : ℚ) (k : Int) (h0 : 0 < q) (h1 : (2 : ℚ) ^ k ≤ q)
    (h2 : q < (2 : ℚ) ^ (k + 1)) : Int.log 2 q = k := by
  have a : k ≤ Int.log 2 q :=
    (Int.zpow_le_iff_le_log (by norm_num) h0).mp (by exact_mod_cast h1)
  have b : Int.log 2 q < k + 1 :=
    (Int.lt_zpow_iff_log_lt (by norm_num) h0).mp (by exact_mod_cast h2)
  omega

/-- A positive number with binary exponent `k` that is a whole multiple of
`2^(k-23)` is a `float`: rounding leaves it as it is. -/
theorem toFloat_exact (q : ℚ) (k n : Int) (h0 : 0 < q) (h1 : (2 : ℚ) ^ k ≤ q)
    (h2 : q < (2 : ℚ) ^ (k + 1)) (hn : q = n * (2 : ℚ) ^ (k - 23)) : toFloat q = q := by
  have hl : Int.log 2 |q| = k := by
    rw [abs_of_pos h0]
    exact log_two_eq q k h0 h1 h2
  have hu : (0 : ℚ) < (2 : ℚ) ^ (k - 23) := zpow_pos (by norm_num) _
  have hq : q / (2 : ℚ) ^ (k - 23) = n := by
    rw [hn]
    field_simp
  have hf : ⌊q / (2 : ℚ) ^ (k - 23)⌋ = n := by
    rw [hq]
    exact Int.floor_intCast n
  simp only [toFloat, hl, roundTiesEven, hf, hq, if_neg (ne_of_gt h0)]
  norm_num
  exact hn.symm

/-- In `float`, `16777215 + 0.5` is `16777216`: the exact sum lies halfway
between two neighbouring values and goes to the even one. -/
theorem floatAdd_tie_up : floatAdd 16777215 (1 / 2) = 16777216 := by
  have hl : Int.log 2 |(16777215 : ℚ) + 1 / 2| = 23 := by
    rw [abs_of_pos (by norm_num)]
    exact log_two_eq _ 23 (by norm_num) (by norm_num) (by norm_num)
  have hf : ⌊((16777215 : ℚ) + 1 / 2) / 1⌋ = 16777215 := by
    rw [Int.floor_eq_iff]
    norm_num
  simp only [floatAdd, toFloat, hl, roundTiesEven]
  norm_num [hf]

/-- In `float`, `16777216 + 1` is `16777216`: the exact sum lies halfway
between two neighbouring values and goes to the even one. -/
theorem floatAdd_tie_down : floatAdd 16777216 1 = 16777216 := by
  have hl : Int.log 2 |(16777216 : ℚ) + 1| = 24 := by
    rw [abs_of_pos (by norm_num)]
    exact log_two_eq _ 24 (by norm_num) (by norm_num) (by norm_num)
  have hf : ⌊((16777216 : ℚ) + 1) / 2⌋ = 8388608 := by
    rw [Int.floor_eq_iff]
    norm_num
  simp only [floatAdd, toFloat, hl, roundTiesEven]
  norm_num [hf]

/-- Counterexample to C8 as stated: in `float`, the rectangles
`a = {16777215, 0, 0.5, 1}` and `b = {16777216, 0, 1, 1}` have fields that are
`float` values and non-negative extents, `isOverlapping(a, b)` is true because
the sum `a.x + a.width` rounds up to `16777216 = b.x`, and yet no point lies
in both closed rectangles: `a` ends at `16777215.5`, left of `b`. -/
theorem isOverlapping_float_counterexample :
    toFloat 16777215 = 16777215 ∧ toFloat (1 / 2) = 1 / 2 ∧ toFloat 16777216 = 16777216 ∧
    toFloat 1 = 1 ∧ toFloat 0 = 0 ∧
    (0 : ℚ) ≤ (⟨16777215, 0, 1 / 2, 1⟩ : Rectangle).width ∧
    (0 : ℚ) ≤ (⟨16777215, 0, 1 / 2, 1⟩ : Rectangle).height ∧
    (0 : ℚ) ≤ (⟨16777216, 0, 1, 1⟩ : Rectangle).width ∧
    (0 : ℚ) ≤ (⟨16777216, 0, 1, 1⟩ : Rectangle).height ∧
    isOverlappingFloat ⟨16777215, 0, 1 / 2, 1⟩ ⟨16777216, 0, 1, 1⟩ = true ∧
    ¬ ∃ px py : ℚ, inClosed ⟨16777215, 0, 1 / 2, 1⟩ px py ∧ inClosed ⟨16777216, 0, 1, 1⟩ px py := by
  have e1 : toFloat 16777215 = 16777215 :=
    toFloat_exact 16777215 23 16777215 (by norm_num) (by norm_num) (by norm_num) (by norm_num)
  have e2 : toFloat (1 / 2) = 1 / 2 :=
    toFloat_exact (1 / 2) (-1) 8388608 (by norm_num) (by norm_num) (by norm_num) (by norm_num)
  have e3 : toFloat 16777216 = 16777216 :=
    toFloat_exact 16777216 24 8388608 (by norm_num) (by norm_num) (by norm_num) (by norm_num)
  have e4 : toFloat 1 = 1 :=
    toFloat_exact 1 0 8388608 (by norm_num) (by norm_num) (by norm_num) (by norm_num)
  have s1 : floatAdd 0 1 = 1 := by
    rw [floatAdd, zero_add]
    exact e4
  refine ⟨e1, e2, e3, e4, by simp [toFloat], by norm_num, by norm_num, by norm_num,
    by norm_num, ?_, ?_⟩
  · simp only [isOverlappingFloat, floatAdd_tie_up, floatAdd_tie_down, s1]
    norm_num
  · rintro ⟨px, py, ⟨_, h2, _, _⟩, ⟨h5, _, _, _⟩⟩
    norm_num at h2 h5
    linarith

